import Mathlib

/-!
Verification of the hook-management subsystem of HookManager.cpp: the hook
registry, the three installation strategies, the export-table parser, the
bulk module-matching algorithm and the delayed-resolution mechanism.

The shallow embedding follows the source file closely.  Machine addresses are
natural numbers, with 0 standing for the null pointer.  The external
collaborators (the trampoline patcher behind the Hook value type, the
VirtualProtect memory-permission primitive, the module loader primitives and
the identity of the current module) are collected in an environment record.
Functions that can hit an uncaught std::out_of_range exception (the at()
lookups into the vtable slot table) return Option, with none marking that
exception.
-/

set_option maxHeartbeats 1000000

namespace ReShade.Hooks

/-- Machine address; the value 0 models the null pointer. -/
abbrev Addr := Nat

/-- PAGE_READONLY protection constant from the Windows headers. -/
def PAGE_READONLY : Nat := 2

/-- PAGE_READWRITE protection constant from the Windows headers. -/
def PAGE_READWRITE : Nat := 4

/-- IMAGE_DOS_SIGNATURE from the Windows headers. -/
def IMAGE_DOS_SIGNATURE : Nat := 0x5A4D

/-- IMAGE_NT_SIGNATURE from the Windows headers. -/
def IMAGE_NT_SIGNATURE : Nat := 0x4550

/-- The three installation strategies of HookManager.cpp. -/
inductive HookType where
  | Export
  | FunctionHook
  | VTableHook
deriving DecidableEq, Repr

/-- One interception record: target address, replacement address, trampoline
address (0 when uninstalled) and the enabled flag.  Modelled from the spec:
the Hook value type is declared in a source file that is not under src/. -/
structure Hook where
  Target : Addr
  Replacement : Addr
  Trampoline : Addr
  Enabled : Bool
deriving DecidableEq, Repr

/-- Modelled from the spec: the default-constructed invalid/empty Hook that
Find returns when no entry matches. -/
def Hook.empty : Hook := ⟨0, 0, 0, false⟩

/-- Modelled from the spec: the trampoline is set if and only if the hook is
currently installed, so installedness is a nonnull trampoline. -/
def Hook.IsInstalled (hk : Hook) : Bool := hk.Trampoline != 0

/-- Modelled from the spec: a hook is valid when target and replacement are
nonnull and distinct. -/
def Hook.IsValid (hk : Hook) : Bool :=
  hk.Target != 0 && hk.Replacement != 0 && hk.Target != hk.Replacement

/-- Modelled from the spec: the status taxonomy of a hook operation. -/
inductive Hook.Status where
  | Unknown
  | Success
  | MemoryProtectionFailure
  | TrampolinePatchFailure
deriving DecidableEq, Repr

/-- Modelled from the spec: a filesystem path together with its file stem
(boost::filesystem::path is an external component; the stem is carried as
data). -/
structure FsPath where
  full : String
  stem : String
deriving DecidableEq, Repr

/-- ASCII lower-case character code, for case-insensitive comparison. -/
def lowerCode (c : Char) : Nat :=
  if 65 ≤ c.toNat ∧ c.toNat ≤ 90 then c.toNat + 32 else c.toNat

/-- Modelled from the spec: boost::iequals, ASCII case-insensitive string
equality. -/
def iequals (a b : String) : Bool :=
  a.data.map lowerCode == b.data.map lowerCode

/-- In-memory view of a loadable module image: the header fields and the
export-directory tables that GetModuleExports reads.  Export-name pointers
are modelled as the strings they point to, kept in name-table order. -/
structure ModuleImage where
  imageBase : Addr
  e_magic : Nat
  ntSignature : Nat
  exportDirSize : Nat
  exportBase : Nat
  numberOfNames : Nat
  numberOfFunctions : Nat
  nameOrdinals : List Nat
  nameStrings : List String
  functionRVAs : List Nat
deriving DecidableEq, Repr

/-- A ModuleExport record as produced by GetModuleExports: address, name
pointer (none models a null or out-of-range name pointer) and ordinal. -/
structure ModuleExport where
  Address : Addr
  Name : Option String
  Ordinal : Nat
deriving DecidableEq, Repr

/-- GetModuleExports from HookManager.cpp lines 74-110.  Returns the empty
list when the DOS signature, the NT signature or the export-directory size
check fails; otherwise walks the name table.  WORD arithmetic is taken
modulo 65536; a negative function-table index is undefined behaviour in the
source and is modelled as the null address. -/
def GetModuleExports (m : ModuleImage) : List ModuleExport :=
  if m.e_magic ≠ IMAGE_DOS_SIGNATURE ∨ m.ntSignature ≠ IMAGE_NT_SIGNATURE ∨
      m.exportDirSize = 0 then
    []
  else
    (List.range m.numberOfNames).map fun i =>
      let ordinal := (m.nameOrdinals.getD i 0 + m.exportBase % 65536) % 65536
      let name := m.nameStrings.get? i
      let idx : Int := (ordinal : Int) - ((m.exportBase % 65536 : Nat) : Int)
      let address :=
        if 0 < m.numberOfFunctions then
          if idx < 0 then 0 else m.imageBase + m.functionRVAs.getD idx.toNat 0
        else 0
      { Address := address, Name := name, Ordinal := ordinal }

/-- boost::equals on two C-string pointers; comparing against a null pointer
is undefined in the source and modelled as false. -/
def cStrEquals (a b : Option String) : Bool :=
  match a, b with
  | some x, some y => x == y
  | _, _ => false

/-- The fixed denylist filter of the bulk-install loop (HookManager.cpp line
215): two exact names plus the DXGID3D10 prefixed family. -/
def denylisted (nm : String) : Bool :=
  nm == "DXGIReportAdapterConfiguration" || nm == "DXGIDumpJournal" ||
    nm.startsWith "DXGID3D10"

/-- The export-table analysis loop of the bulk installer (HookManager.cpp
lines 204-225): for each target symbol with nonnull name and address, find
the first same-named replacement export; skip when there is none or the name
is denylisted. -/
def analyzeMatches (tex rex : List ModuleExport) : List (Addr × Addr) :=
  tex.filterMap fun symbol =>
    match symbol.Name with
    | none => none
    | some nm =>
      if symbol.Address = 0 then none
      else
        match rex.find? (fun it => cStrEquals it.Name (some nm)) with
        | none => none
        | some it => if denylisted nm then none else some (symbol.Address, it.Address)

/-- The external collaborators, as one record of abstract services: the
trampoline patcher (install and remove), VirtualProtect keyed by address and
requested protection, the loader primitives, the current (replacement)
module with its file path, and the addresses of the two loader entry points
and of their replacement functions. -/
structure Env where
  patch : Addr → Bool
  unpatch : Addr → Bool
  protOk : Addr → Nat → Bool
  loadA : String → Option ModuleImage
  loadW : String → Option ModuleImage
  getModuleHandle : String → Option ModuleImage
  curModule : ModuleImage
  curPath : FsPath
  LoadLibraryA_addr : Addr
  LoadLibraryW_addr : Addr
  HookLoadLibraryA_addr : Addr
  HookLoadLibraryW_addr : Addr

/-- The process-wide shared state of HookManager.cpp: the hook table, the
pending delayed-hook paths, the vtable slot table (an insert-if-absent map
from original function pointer to slot address, kept as an association
list), the deferred export-module path and handle, the process memory seen
as function-pointer-sized cells, and a trace of FreeLibrary calls recorded
by image base. -/
structure HMState where
  sHooks : List (Hook × HookType)
  sDelayedHookPaths : List FsPath
  sVTableAddresses : List (Addr × Addr)
  sExportHookPath : Option FsPath
  sExportHookModule : Option ModuleImage
  mem : Addr → Addr
  freed : List Addr

/-- Lookup in the vtable slot table (unordered_map find / at). -/
def lookupMap (m : List (Addr × Addr)) (k : Addr) : Option Addr :=
  (m.find? (fun e => e.1 = k)).map (fun e => e.2)

/-- unordered_map::emplace — insert if absent; returns whether a fresh
insert happened, the resulting entry (new or preexisting) and the new map. -/
def emplaceMap (m : List (Addr × Addr)) (k v : Addr) :
    Bool × (Addr × Addr) × List (Addr × Addr) :=
  match m.find? (fun e => e.1 = k) with
  | some e => (false, e, m)
  | none => (true, (k, v), (k, v) :: m)

/-- unordered_map::erase by key. -/
def eraseMap (m : List (Addr × Addr)) (k : Addr) : List (Addr × Addr) :=
  m.filter (fun e => e.1 ≠ k)

/-- Write one function-pointer-sized memory cell. -/
def memWrite (f : Addr → Addr) (a v : Addr) : Addr → Addr :=
  fun x => if x = a then v else f x

/-- The hook value built at HookManager.cpp lines 123-124: Hook(target,
replacement) with the trampoline conventionally preset to the target. -/
def mkHook (target replacement : Addr) : Hook :=
  { Target := target, Replacement := replacement, Trampoline := target, Enabled := true }

/-- Internal Install(target, replacement, method) of HookManager.cpp lines
119-177.  The FunctionHook branch delegates to the external patcher
(modelled from the spec: on success the trampoline keeps the conventional
preset value, the target); the VTableHook branch returns none when the slot
table holds no entry for the target, modelling the uncaught out_of_range
exception of at().  On Success the hook is appended to the table. -/
def InstallByType (env : Env) (target replacement : Addr) (method : HookType)
    (s : HMState) : Option (Hook.Status × HMState) :=
  let hook := mkHook target replacement
  let step : Option (Hook.Status × HMState) :=
    match method with
    | .Export => some (.Success, s)
    | .FunctionHook =>
        if env.patch target then some (.Success, s)
        else some (.TrampolinePatchFailure, s)
    | .VTableHook =>
        match lookupMap s.sVTableAddresses target with
        | none => none
        | some slotAddr =>
            if env.protOk slotAddr PAGE_READWRITE then
              some (.Success, { s with mem := memWrite s.mem slotAddr replacement })
            else
              some (.MemoryProtectionFailure, s)
  step.map fun r =>
    if r.1 = Hook.Status.Success then
      (r.1, { r.2 with sHooks := r.2.sHooks ++ [(hook, method)] })
    else r

/-- One iteration of the bulk-install loop (HookManager.cpp lines 231-237):
install the match and bump the counter on success. -/
def installStep (env : Env) (method : HookType) (acc : Nat × HMState)
    (mt : Addr × Addr) : Option (Nat × HMState) :=
  (InstallByType env mt.1 mt.2 method acc.2).map fun r =>
    (if r.1 = Hook.Status.Success then acc.1 + 1 else acc.1, r.2)

/-- Internal Install(targetModule, replacementModule, method) of
HookManager.cpp lines 178-251: read both export tables, return false early
on an empty target table, otherwise install every match and report whether
the success counter is nonzero. -/
def InstallModulePair (env : Env) (targetModule replacementModule : ModuleImage)
    (method : HookType) (s : HMState) : Option (Bool × HMState) :=
  let targetExports := GetModuleExports targetModule
  let replacementExports := GetModuleExports replacementModule
  if targetExports.isEmpty then some (false, s)
  else do
    let ms := analyzeMatches targetExports replacementExports
    let r ← ms.foldlM (installStep env method) (0, s)
    pure (decide (r.1 ≠ 0), r.2)

/-- Internal Uninstall(hook, method) of HookManager.cpp lines 252-314.
Idempotent no-op when the hook is not installed; skipped for the Export
method; FunctionHook delegates to the patcher (modelled from the spec);
VTableHook restores the original pointer into the captured slot and removes
the slot-table entry; none models the out_of_range exception of at().  On
success the trampoline field of the (by-reference) hook is cleared. -/
def UninstallHook (env : Env) (hook : Hook) (method : HookType) (s : HMState) :
    Option (Bool × Hook × HMState) :=
  if hook.IsInstalled = false then some (true, hook, s)
  else if method = HookType.Export then some (true, hook, s)
  else
    let step : Option (Hook.Status × HMState) :=
      match method with
      | .Export => some (.Unknown, s)
      | .FunctionHook =>
          if env.unpatch hook.Trampoline then some (.Success, s)
          else some (.TrampolinePatchFailure, s)
      | .VTableHook =>
          match lookupMap s.sVTableAddresses hook.Target with
          | none => none
          | some slotAddr =>
              if env.protOk slotAddr PAGE_READWRITE then
                some (.Success,
                  { s with
                    mem := memWrite s.mem slotAddr hook.Target,
                    sVTableAddresses := eraseMap s.sVTableAddresses hook.Target })
              else
                some (.MemoryProtectionFailure, s)
    step.map fun r =>
      if r.1 = Hook.Status.Success then (true, { hook with Trampoline := 0 }, r.2)
      else (false, hook, r.2)

/-- Global Uninstall() of HookManager.cpp lines 457-476: uninstall every
tracked hook best-effort, clear the table, and free the lazily loaded export
module when one is recorded.  Note that the source never resets
sExportHookModule to null after freeing it. -/
def UninstallAll (env : Env) (s : HMState) : Option HMState := do
  let s₁ ← s.sHooks.foldlM
    (fun st p => (UninstallHook env p.1 p.2 st).map (fun r => r.2.2)) s
  let s₂ := { s₁ with sHooks := ([] : List (Hook × HookType)) }
  match s₂.sExportHookModule with
  | some m => pure { s₂ with freed := s₂.freed ++ [m.imageBase] }
  | none => pure s₂

/-- Find(replacement) of HookManager.cpp lines 478-491: first tracked hook
whose replacement matches, else the empty hook. -/
def Find (replacement : Addr) (s : HMState) : Hook :=
  match s.sHooks.find? (fun p => p.1.Replacement = replacement) with
  | some p => p.1
  | none => Hook.empty

/-- Public Install(target, replacement) of HookManager.cpp lines 405-423:
reject target = replacement; when the replacement is already installed,
succeed exactly if the recorded target matches; otherwise install with the
FunctionHook method.  The nonnull asserts of the source are preconditions,
not modelled as branches. -/
def InstallFn (env : Env) (target replacement : Addr) (s : HMState) :
    Option (Bool × HMState) :=
  if target = replacement then some (false, s)
  else if (Find replacement s).IsInstalled then
    some (decide (target = (Find replacement s).Target), s)
  else
    (InstallByType env target replacement HookType.FunctionHook s).map fun r =>
      (decide (r.1 = Hook.Status.Success), r.2)

/-- Public Install(vtable, offset, replacement) of HookManager.cpp lines
424-456: probe the slot under PAGE_READONLY, read the current pointer,
insert it into the slot table if absent; on a fresh insert run the VTableHook
install (unless the slot already holds the replacement) and roll the entry
back on failure; on a duplicate report whether the found key matches. -/
def InstallVTable (env : Env) (vtable : Addr) (offset : Nat) (replacement : Addr)
    (s : HMState) : Option (Bool × HMState) :=
  let slot := vtable + offset
  if env.protOk slot PAGE_READONLY then
    let target := s.mem slot
    let ins := emplaceMap s.sVTableAddresses target slot
    let s₁ := { s with sVTableAddresses := ins.2.2 }
    if ins.1 then
      if target ≠ replacement then
        (InstallByType env target replacement HookType.VTableHook s₁).map fun r =>
          if r.1 = Hook.Status.Success then (true, r.2)
          else (false, { r.2 with sVTableAddresses := eraseMap r.2.sVTableAddresses target })
      else
        some (false, { s₁ with sVTableAddresses := eraseMap s₁.sVTableAddresses target })
    else
      some (decide (ins.2.1.1 = target), s₁)
  else
    some (false, s)

/-- Register(targetPath) of HookManager.cpp lines 370-403: bootstrap the two
load-watch hooks, then either defer the path as the export-module path (stem
matches the current module), bulk-install immediately (module already
loaded), or queue the path for delayed hooking. -/
def Register (env : Env) (targetPath : FsPath) (s : HMState) : Option HMState := do
  let r₁ ← InstallFn env env.LoadLibraryA_addr env.HookLoadLibraryA_addr s
  let r₂ ← InstallFn env env.LoadLibraryW_addr env.HookLoadLibraryW_addr r₁.2
  let s₂ := r₂.2
  if iequals targetPath.stem env.curPath.stem then
    pure { s₂ with sExportHookPath := some targetPath }
  else
    match env.getModuleHandle targetPath.full with
    | some targetModule => do
        let r₃ ← InstallModulePair env targetModule env.curModule HookType.FunctionHook s₂
        pure r₃.2
    | none =>
        pure { s₂ with sDelayedHookPaths := s₂.sDelayedHookPaths ++ [targetPath] }

/-- Call(replacement) of HookManager.cpp lines 492-528: resolve the deferred
export module first when a path is pending (the Enable toggles of the
load-watch hook act on a copy returned by Find and have no effect on the
table), then look the replacement up; a missing or invalid hook yields the
null address, otherwise the trampoline address is returned. -/
def Call (env : Env) (replacement : Addr) (s : HMState) : Option (Addr × HMState) := do
  let s₁ ←
    match s.sExportHookPath with
    | none => pure s
    | some path =>
      match env.loadW path.full with
      | some m => do
          let s' := { s with sExportHookModule := some m, sExportHookPath := none }
          let r ← InstallModulePair env m env.curModule HookType.Export s'
          pure r.2
      | none => pure { s with sExportHookModule := (none : Option ModuleImage) }
  let hook := Find replacement s₁
  if hook.IsValid then pure (hook.Trampoline, s₁) else pure (0, s₁)

/-- HookLoadLibraryA of HookManager.cpp lines 316-340: forward through the
trampoline obtained from Call (invoking the returned address reaches the
original loader exactly when it is the LoadLibraryA entry point; any other
value is outside the model and yields a null handle), then on a nonnull
handle scan the pending list for a stem match, bulk-install against the new
module and drop the pending entry only when that reported success. -/
def HookLoadLibraryA (env : Env) (fileName : FsPath) (s : HMState) :
    Option (Option ModuleImage × HMState) := do
  let c ← Call env env.HookLoadLibraryA_addr s
  let s₁ := c.2
  let handle := if c.1 = env.LoadLibraryA_addr then env.loadA fileName.full else none
  match handle with
  | none => pure (none, s₁)
  | some m =>
    if s₁.sDelayedHookPaths.any (fun q => iequals q.stem fileName.stem) then do
      let r ← InstallModulePair env m env.curModule HookType.FunctionHook s₁
      if r.1 then
        pure (some m,
          { r.2 with sDelayedHookPaths :=
              r.2.sDelayedHookPaths.eraseP (fun q => iequals q.stem fileName.stem) })
      else
        pure (some m, r.2)
    else
      pure (some m, s₁)

/-- HookLoadLibraryW of HookManager.cpp lines 341-365: the wide-string
variant of the load-watch hook. -/
def HookLoadLibraryW (env : Env) (fileName : FsPath) (s : HMState) :
    Option (Option ModuleImage × HMState) := do
  let c ← Call env env.HookLoadLibraryW_addr s
  let s₁ := c.2
  let handle := if c.1 = env.LoadLibraryW_addr then env.loadW fileName.full else none
  match handle with
  | none => pure (none, s₁)
  | some m =>
    if s₁.sDelayedHookPaths.any (fun q => iequals q.stem fileName.stem) then do
      let r ← InstallModulePair env m env.curModule HookType.FunctionHook s₁
      if r.1 then
        pure (some m,
          { r.2 with sDelayedHookPaths :=
              r.2.sDelayedHookPaths.eraseP (fun q => iequals q.stem fileName.stem) })
      else
        pure (some m, r.2)
    else
      pure (some m, s₁)

/-- The state at process attach: all tables empty, arbitrary memory. -/
def initState (mem₀ : Addr → Addr) : HMState :=
  { sHooks := [], sDelayedHookPaths := [], sVTableAddresses := [],
    sExportHookPath := none, sExportHookModule := none, mem := mem₀, freed := [] }

/-- States reachable from process attach through the public entry points
(with arbitrary external environments at every step). -/
inductive Reach : HMState → Prop where
  | init (mem₀ : Addr → Addr) : Reach (initState mem₀)
  | installFn {s s' : HMState} {env : Env} {t r : Addr} {b : Bool} :
      Reach s → InstallFn env t r s = some (b, s') → Reach s'
  | installVT {s s' : HMState} {env : Env} {vt : Addr} {off : Nat} {r : Addr} {b : Bool} :
      Reach s → InstallVTable env vt off r s = some (b, s') → Reach s'
  | register {s s' : HMState} {env : Env} {p : FsPath} :
      Reach s → Register env p s = some s' → Reach s'
  | uninstallAll {s s' : HMState} {env : Env} :
      Reach s → UninstallAll env s = some s' → Reach s'
  | call {s s' : HMState} {env : Env} {r tr : Addr} :
      Reach s → Call env r s = some (tr, s') → Reach s'
  | loadA {s s' : HMState} {env : Env} {p : FsPath} {h : Option ModuleImage} :
      Reach s → HookLoadLibraryA env p s = some (h, s') → Reach s'
  | loadW {s s' : HMState} {env : Env} {p : FsPath} {h : Option ModuleImage} :
      Reach s → HookLoadLibraryW env p s = some (h, s') → Reach s'

/-- C5 claim predicate: a target export is hookable against a replacement
export table when its name is nonnull, its address is nonnull, the
replacement table has a same-named export (case-sensitive) and the name is
not on the fixed denylist. -/
def HookableExport (rex : List ModuleExport) (symbol : ModuleExport) : Bool :=
  symbol.Name.isSome && symbol.Address != 0 &&
    rex.any (fun it => cStrEquals it.Name symbol.Name) &&
    !(match symbol.Name with | some nm => denylisted nm | none => false)

/-- The vtable slot-table invariant: every tracked VTableHook entry has its
target registered in the slot table, and the targets of the tracked
VTableHook entries are pairwise distinct. -/
def VTableInv (s : HMState) : Prop :=
  (∀ p ∈ s.sHooks, p.2 = HookType.VTableHook →
      (lookupMap s.sVTableAddresses p.1.Target).isSome = true) ∧
  List.Pairwise (· ≠ ·)
    ((s.sHooks.filter (fun p => p.2 == HookType.VTableHook)).map (fun p => p.1.Target))

/-- A state change that leaves the slot table alone and only appends
non-VTableHook entries to the hook table. -/
def NonVTStep (s s' : HMState) : Prop :=
  s'.sVTableAddresses = s.sVTableAddresses ∧
  ∃ extra, s'.sHooks = s.sHooks ++ extra ∧
    ∀ e ∈ extra, e.2 ≠ HookType.VTableHook

/-- A zeroed memory for concrete scenarios. -/
def memZero : Addr → Addr := fun _ => 0

/-- A module image with a malformed (all-zero) header. -/
def img0 : ModuleImage :=
  { imageBase := 0, e_magic := 0, ntSignature := 0, exportDirSize := 0,
    exportBase := 0, numberOfNames := 0, numberOfFunctions := 0,
    nameOrdinals := [], nameStrings := [], functionRVAs := [] }

/-- A concrete benign environment: the patcher and VirtualProtect always
succeed, no module is loaded or loadable. -/
def env0 : Env :=
  { patch := fun _ => true, unpatch := fun _ => true, protOk := fun _ _ => true,
    loadA := fun _ => none, loadW := fun _ => none, getModuleHandle := fun _ => none,
    curModule := img0, curPath := ⟨"reshade.dll", "reshade"⟩,
    LoadLibraryA_addr := 1000, LoadLibraryW_addr := 1002,
    HookLoadLibraryA_addr := 1001, HookLoadLibraryW_addr := 1003 }

/-- The empty start state over zeroed memory. -/
def s0 : HMState := initState memZero

/-- State after Install(5, 7) succeeded from the empty state. -/
def s1C1 : HMState := { s0 with sHooks := [(mkHook 5 7, HookType.FunctionHook)] }

/-- A module image whose base is 0x500, standing for the lazily loaded
export module of the C2 scenario. -/
def img500 : ModuleImage := { img0 with imageBase := 0x500 }

/-- C2 failing input: one installed hook and a recorded export module. -/
def sC2 : HMState :=
  { s0 with sHooks := [(mkHook 5 7, HookType.FunctionHook)],
            sExportHookModule := some img500 }

/-- C5 scenario target module: exports Foo at 0x100 and Bar at 0x200. -/
def tmodC5 : ModuleImage :=
  { imageBase := 0, e_magic := 0x5A4D, ntSignature := 0x4550, exportDirSize := 1,
    exportBase := 1, numberOfNames := 2, numberOfFunctions := 2,
    nameOrdinals := [0, 1], nameStrings := ["Foo", "Bar"],
    functionRVAs := [0x100, 0x200] }

/-- C5 scenario replacement module: exports Foo at 0x900 and Baz at 0x910. -/
def rmodC5 : ModuleImage :=
  { tmodC5 with nameStrings := ["Foo", "Baz"], functionRVAs := [0x900, 0x910] }

/-- C6 scenario environment: the current module is the C5 replacement module
and loading any path yields the C5 target module. -/
def envC6 : Env := { env0 with curModule := rmodC5, loadA := fun _ => some tmodC5 }

/-- C6 scenario state: the two load-watch hooks are already installed. -/
def sC6 : HMState :=
  { s0 with sHooks :=
      [(mkHook 1000 1001, HookType.FunctionHook),
       (mkHook 1002 1003, HookType.FunctionHook)] }

/-- C6 pending target path. -/
def pC6 : FsPath := ⟨"d3d9.dll", "d3d9"⟩

/-- C6 load-event file name, matching the pending stem case-insensitively. -/
def nameC6 : FsPath := ⟨"D3D9.dll", "D3D9"⟩

/-- C7 scenario memory: the vtable slot at 0x2000 holds 0x3000. -/
def memC7 : Addr → Addr := fun a => if a = 0x2000 then 0x3000 else 0

/-- C7 start state over that memory. -/
def sC7 : HMState := initState memC7

/-- C8 environment: read-only probes succeed, the read-write permission
change is refused. -/
def envC8 : Env := { env0 with protOk := fun _ mode => mode == PAGE_READONLY }

/-- C2 state after the first global Uninstall: table cleared, module freed
once, but sExportHookModule still set. -/
def sC2a : HMState := { sC2 with sHooks := [], freed := [0x500] }

/-- C2 state after the second global Uninstall: the stale handle freed again. -/
def sC2b : HMState := { sC2a with freed := [0x500, 0x500] }

theorem find?_append_left_none {α : Type} (p : α → Bool) (l₁ l₂ : List α)
    (h : l₁.find? p = none) : (l₁ ++ l₂).find? p = l₂.find? p := by
  induction l₁ with
  | nil => simp
  | cons a l ih =>
    cases hpa : p a with
    | true => simp [List.find?_cons_of_pos _ hpa] at h
    | false =>
      rw [List.cons_append, List.find?_cons_of_neg _ (by simp [hpa])]
      rw [List.find?_cons_of_neg _ (by simp [hpa])] at h
      exact ih h

theorem Find_eq_empty {r : Addr} {s : HMState}
    (h : ∀ p ∈ s.sHooks, p.1.Replacement ≠ r) : Find r s = Hook.empty := by
  unfold Find
  rw [List.find?_eq_none.mpr]
  intro p hp
  simp [h p hp]

theorem Find_of_no_prior {r : Addr} {s : HMState} (hk : Hook) (m : HookType)
    (h : ∀ p ∈ s.sHooks, p.1.Replacement ≠ r) (hr : hk.Replacement = r) :
    Find r { s with sHooks := s.sHooks ++ [(hk, m)] } = hk := by
  unfold Find
  rw [find?_append_left_none]
  · simp [hr]
  · rw [List.find?_eq_none]
    intro p hp
    simp [h p hp]

/-- C9: export-table parsing of a module with a bad DOS signature, a bad NT
signature, or no export directory returns the empty sequence of symbols
rather than signaling an error. -/
theorem spec_C9_exports_empty (m : ModuleImage)
    (h : m.e_magic ≠ IMAGE_DOS_SIGNATURE ∨ m.ntSignature ≠ IMAGE_NT_SIGNATURE ∨
      m.exportDirSize = 0) :
    GetModuleExports m = [] := by
  unfold GetModuleExports
  rw [if_pos h]

/-- C9 witness: the all-zero image has a malformed header and parses to the
empty export list. -/
theorem spec_C9_witness :
    (img0.e_magic ≠ IMAGE_DOS_SIGNATURE ∨ img0.ntSignature ≠ IMAGE_NT_SIGNATURE ∨
      img0.exportDirSize = 0) ∧ GetModuleExports img0 = [] :=
  ⟨Or.inl (by decide), spec_C9_exports_empty img0 (Or.inl (by decide))⟩

/-- C1 counterexample: with 7 already hooked to target 5, Install(6, 7)
fails and Find(7) still reports target 5, not 6, refuting the claim at the
distinct pair t = 6, r = 7. -/
theorem spec_C1_counterexample :
    InstallFn env0 5 7 s0 = some (true, s1C1) ∧
    InstallFn env0 6 7 s1C1 = some (false, s1C1) ∧
    (Find 7 s1C1).Target = 5 ∧ ¬((Find 7 s1C1).Target = 6) :=
  ⟨rfl, rfl, rfl, by decide⟩

/-- C1 (amended): for distinct nonnull addresses t and r, if no tracked hook
has replacement r and the external trampoline patcher succeeds for t, then
Install(t, r) succeeds and Find(r) returns a hook whose target equals t. -/
theorem spec_C1_amended (env : Env) (t r : Addr) (s : HMState)
    (htr : t ≠ r) (ht0 : t ≠ 0) (hr0 : r ≠ 0)
    (hfresh : ∀ p ∈ s.sHooks, p.1.Replacement ≠ r)
    (hp : env.patch t = true) :
    ∃ s', InstallFn env t r s = some (true, s') ∧ (Find r s').Target = t := by
  refine ⟨{ s with sHooks := s.sHooks ++ [(mkHook t r, HookType.FunctionHook)] }, ?_, ?_⟩
  · unfold InstallFn
    rw [if_neg htr, Find_eq_empty hfresh]
    simp [Hook.empty, Hook.IsInstalled, InstallByType, hp, mkHook]
  · rw [Find_of_no_prior (mkHook t r) HookType.FunctionHook hfresh rfl]
    rfl

/-- C1 amended witness: the concrete fresh install of (5, 7) in the empty
state, followed by Find(7). -/
theorem spec_C1_amended_witness :
    ∃ s', InstallFn env0 5 7 s0 = some (true, s') ∧ (Find 7 s').Target = 5 :=
  spec_C1_amended env0 5 7 s0 (by decide) (by decide) (by decide)
    (by intro p hp; simp [s0, initState] at hp) rfl

/-- C3: installing the same (target, replacement) pair twice is idempotent;
assuming the nonnull-target precondition of the source assert and that every
tracked hook for this replacement is installed, a successful Install(t, r)
followed by the same call returns success again and leaves the state (and in
particular the hook table) unchanged. -/
theorem spec_C3_idempotent (env : Env) (t r : Addr) (s s₁ : HMState)
    (ht0 : t ≠ 0)
    (hinv : ∀ p ∈ s.sHooks, p.1.Replacement = r → p.1.Trampoline ≠ 0)
    (h1 : InstallFn env t r s = some (true, s₁)) :
    InstallFn env t r s₁ = some (true, s₁) := by
  unfold InstallFn at h1 ⊢
  by_cases htr : t = r
  · rw [if_pos htr] at h1
    have : False := by simpa using congrArg Prod.fst (Option.some.inj h1)
    exact this.elim
  · rw [if_neg htr] at h1 ⊢
    cases hF : (Find r s).IsInstalled with
    | true =>
      rw [if_pos hF] at h1
      have h' := Option.some.inj h1
      have hb : decide (t = (Find r s).Target) = true := congrArg Prod.fst h'
      have hs : s = s₁ := congrArg Prod.snd h'
      subst hs
      rw [if_pos hF, hb]
    | false =>
      rw [if_neg (by simp [hF])] at h1
      have hfresh : ∀ p ∈ s.sHooks, p.1.Replacement ≠ r := by
        intro p hp hrep
        have hins : p.1.Trampoline ≠ 0 := hinv p hp hrep
        have hsome : s.sHooks.find? (fun q => q.1.Replacement = r) ≠ none := by
          rw [Ne, List.find?_eq_none]
          intro hall
          exact hall p hp (by simp [hrep])
        cases hfind : s.sHooks.find? (fun q => q.1.Replacement = r) with
        | none => exact hsome hfind
        | some q =>
          have hq : q.1.Trampoline ≠ 0 :=
            hinv q (List.mem_of_find?_eq_some hfind)
              (by simpa using List.find?_some hfind)
          have : (Find r s).IsInstalled = true := by
            unfold Find
            rw [hfind]
            simp [Hook.IsInstalled, hq]
          rw [this] at hF
          simp at hF
      unfold InstallByType at h1
      cases hp : env.patch t with
      | false =>
        rw [hp] at h1
        simp at h1
      | true =>
        rw [hp] at h1
        simp only [Option.map_some'] at h1
        have h' := Option.some.inj h1
        have hs₁ : { s with sHooks := s.sHooks ++ [(mkHook t r, HookType.FunctionHook)] } = s₁ := by
          simpa using congrArg Prod.snd h'
      -- in the second call the appended hook is the unique entry for r
        have hfind₁ : Find r s₁ = mkHook t r := by
          rw [← hs₁]
          exact Find_of_no_prior (mkHook t r) HookType.FunctionHook hfresh rfl
        have hins₁ : (Find r s₁).IsInstalled = true := by
          rw [hfind₁]
          simp [Hook.IsInstalled, mkHook, ht0]
        rw [if_pos hins₁, hfind₁]
        simp [mkHook]

/-- C3 witness: installing (5, 7) twice from the empty state. -/
theorem spec_C3_witness : InstallFn env0 5 7 s1C1 = some (true, s1C1) :=
  spec_C3_idempotent env0 5 7 s0 s1C1 (by decide)
    (by intro p hp; simp [s0, initState] at hp) rfl

/-- C4: when replacement r is already hooked to some target, installing r
with a different target fails and leaves the state, and so the existing hook
(target, trampoline, table entry), unchanged. -/
theorem spec_C4_conflict (env : Env) (t2 r : Addr) (s : HMState)
    (hins : (Find r s).IsInstalled = true)
    (hne : t2 ≠ (Find r s).Target) :
    InstallFn env t2 r s = some (false, s) := by
  unfold InstallFn
  by_cases htr : t2 = r
  · rw [if_pos htr]
  · rw [if_neg htr, if_pos hins]
    simp [hne]

/-- C4 witness: with 7 hooked to target 5, Install(6, 7) fails and keeps the
state unchanged. -/
theorem spec_C4_witness : InstallFn env0 6 7 s1C1 = some (false, s1C1) :=
  spec_C4_conflict env0 6 7 s1C1 rfl (by decide)

theorem find?_of_lookup_none {m : List (Addr × Addr)} {k : Addr}
    (h : lookupMap m k = none) : m.find? (fun e => e.1 = k) = none := by
  unfold lookupMap at h
  exact Option.map_eq_none'.mp h

theorem lookup_none_no_key {m : List (Addr × Addr)} {k : Addr}
    (h : lookupMap m k = none) : ∀ e ∈ m, e.1 ≠ k := by
  intro e he
  have := List.find?_eq_none.mp (find?_of_lookup_none h) e he
  simpa using this

theorem lookupMap_cons_self (k v : Addr) (m : List (Addr × Addr)) :
    lookupMap ((k, v) :: m) k = some v := by
  unfold lookupMap
  rw [List.find?_cons_of_pos _ (by simp)]
  rfl

theorem lookupMap_cons_ne {k e1 : Addr} (v : Addr) (m : List (Addr × Addr))
    (h : e1 ≠ k) : lookupMap ((e1, v) :: m) k = lookupMap m k := by
  unfold lookupMap
  rw [List.find?_cons_of_neg _ (by simp [h])]

theorem eraseMap_of_no_key {m : List (Addr × Addr)} {k : Addr}
    (h : ∀ e ∈ m, e.1 ≠ k) : eraseMap m k = m := by
  induction m with
  | nil => rfl
  | cons e l ih =>
    unfold eraseMap at ih ⊢
    rw [List.filter_cons_of_pos (by simp [h e (List.mem_cons_self e l)]),
      ih (fun e' he' => h e' (List.mem_cons_of_mem _ he'))]

theorem eraseMap_cons_self {k : Addr} (v : Addr) {m : List (Addr × Addr)}
    (h : ∀ e ∈ m, e.1 ≠ k) : eraseMap ((k, v) :: m) k = m := by
  unfold eraseMap
  rw [List.filter_cons_of_neg (by simp)]
  exact eraseMap_of_no_key h

theorem lookupMap_erase_ne {m : List (Addr × Addr)} {k k' : Addr}
    (h : k' ≠ k) : lookupMap (eraseMap m k) k' = lookupMap m k' := by
  induction m with
  | nil => rfl
  | cons e l ih =>
    by_cases hek : e.1 = k
    · have h1 : eraseMap (e :: l) k = eraseMap l k := by
        unfold eraseMap
        rw [List.filter_cons_of_neg (by simp [hek])]
      have h2 : lookupMap (e :: l) k' = lookupMap l k' :=
        lookupMap_cons_ne e.2 l (by rw [hek]; exact fun hh => h hh.symm)
      rw [h1, h2, ih]
    · have h1 : eraseMap (e :: l) k = e :: eraseMap l k := by
        unfold eraseMap
        rw [List.filter_cons_of_pos (by simp [hek])]
      rw [h1]
      by_cases hek' : e.1 = k'
      · show lookupMap ((e.1, e.2) :: eraseMap l k) k' = lookupMap ((e.1, e.2) :: l) k'
        rw [← hek', lookupMap_cons_self, lookupMap_cons_self]
      · have ha : lookupMap (e :: eraseMap l k) k' = lookupMap (eraseMap l k) k' :=
          lookupMap_cons_ne e.2 (eraseMap l k) hek'
        have hb : lookupMap (e :: l) k' = lookupMap l k' :=
          lookupMap_cons_ne e.2 l hek'
        rw [ha, hb, ih]

theorem installByType_export_eq (env : Env) (t r : Addr) (s : HMState) :
    InstallByType env t r HookType.Export s =
      some (Hook.Status.Success,
        { s with sHooks := s.sHooks ++ [(mkHook t r, HookType.Export)] }) := rfl

theorem installByType_fn_pos (env : Env) (t r : Addr) (s : HMState)
    (h : env.patch t = true) :
    InstallByType env t r HookType.FunctionHook s =
      some (Hook.Status.Success,
        { s with sHooks := s.sHooks ++ [(mkHook t r, HookType.FunctionHook)] }) := by
  unfold InstallByType
  rw [if_pos h]
  rfl

theorem installByType_fn_neg (env : Env) (t r : Addr) (s : HMState)
    (h : env.patch t = false) :
    InstallByType env t r HookType.FunctionHook s =
      some (Hook.Status.TrampolinePatchFailure, s) := by
  unfold InstallByType
  rw [if_neg (by simp [h])]
  rfl

theorem installByType_vt_pos (env : Env) (t r : Addr) (s : HMState) (slot : Addr)
    (hl : lookupMap s.sVTableAddresses t = some slot)
    (hrw : env.protOk slot PAGE_READWRITE = true) :
    InstallByType env t r HookType.VTableHook s =
      some (Hook.Status.Success,
        { s with mem := memWrite s.mem slot r,
                 sHooks := s.sHooks ++ [(mkHook t r, HookType.VTableHook)] }) := by
  unfold InstallByType
  rw [hl]
  simp [hrw]

theorem installByType_vt_protfail (env : Env) (t r : Addr) (s : HMState) (slot : Addr)
    (hl : lookupMap s.sVTableAddresses t = some slot)
    (hrw : env.protOk slot PAGE_READWRITE = false) :
    InstallByType env t r HookType.VTableHook s =
      some (Hook.Status.MemoryProtectionFailure, s) := by
  unfold InstallByType
  rw [hl]
  simp [hrw]

theorem installByType_vt_none (env : Env) (t r : Addr) (s : HMState)
    (hl : lookupMap s.sVTableAddresses t = none) :
    InstallByType env t r HookType.VTableHook s = none := by
  unfold InstallByType
  rw [hl]
  rfl

theorem uninstallHook_not_installed (env : Env) (hk : Hook) (m : HookType) (s : HMState)
    (h : hk.IsInstalled = false) :
    UninstallHook env hk m s = some (true, hk, s) := by
  unfold UninstallHook
  rw [if_pos h]

theorem uninstallHook_export (env : Env) (hk : Hook) (s : HMState) :
    UninstallHook env hk HookType.Export s = some (true, hk, s) := by
  unfold UninstallHook
  by_cases h : hk.IsInstalled = false
  · rw [if_pos h]
  · rw [if_neg h, if_pos rfl]

theorem uninstallHook_fn (env : Env) (hk : Hook) (s : HMState) :
    UninstallHook env hk HookType.FunctionHook s =
      if hk.IsInstalled = false then some (true, hk, s)
      else if env.unpatch hk.Trampoline then some (true, { hk with Trampoline := 0 }, s)
      else some (false, hk, s) := by
  unfold UninstallHook
  by_cases h : hk.IsInstalled = false
  · rw [if_pos h, if_pos h]
  · rw [if_neg h, if_neg h, if_neg (by simp)]
    cases hu : env.unpatch hk.Trampoline <;> simp [hu]

theorem uninstallHook_vt_pos (env : Env) (hk : Hook) (s : HMState) (slot : Addr)
    (hi : hk.IsInstalled = true)
    (hl : lookupMap s.sVTableAddresses hk.Target = some slot)
    (hrw : env.protOk slot PAGE_READWRITE = true) :
    UninstallHook env hk HookType.VTableHook s =
      some (true, { hk with Trampoline := 0 },
        { s with mem := memWrite s.mem slot hk.Target,
                 sVTableAddresses := eraseMap s.sVTableAddresses hk.Target }) := by
  unfold UninstallHook
  rw [if_neg (by simp [hi]), if_neg (by simp)]
  rw [hl]
  simp [hrw]

theorem uninstallHook_vt_protfail (env : Env) (hk : Hook) (s : HMState) (slot : Addr)
    (hi : hk.IsInstalled = true)
    (hl : lookupMap s.sVTableAddresses hk.Target = some slot)
    (hrw : env.protOk slot PAGE_READWRITE = false) :
    UninstallHook env hk HookType.VTableHook s = some (false, hk, s) := by
  unfold UninstallHook
  rw [if_neg (by simp [hi]), if_neg (by simp)]
  rw [hl]
  simp [hrw]

theorem uninstallHook_vt_none (env : Env) (hk : Hook) (s : HMState)
    (hi : hk.IsInstalled = true)
    (hl : lookupMap s.sVTableAddresses hk.Target = none) :
    UninstallHook env hk HookType.VTableHook s = none := by
  unfold UninstallHook
  rw [if_neg (by simp [hi]), if_neg (by simp)]
  rw [hl]
  simp

/-- C2 evidence: from a state holding one installed hook and the lazily
loaded export module (image base 0x500), the first global Uninstall empties
the hook table and frees the module; the second Uninstall is not a no-op: it
calls FreeLibrary on the stale handle again, because the source never resets
sExportHookModule. -/
theorem spec_C2_double_free_evidence :
    UninstallAll env0 sC2 = some sC2a ∧
    sC2a.sHooks = [] ∧ sC2a.freed = [0x500] ∧
    sC2a.sExportHookModule = some img500 ∧
    UninstallAll env0 sC2a = some sC2b ∧
    sC2b.freed = [0x500, 0x500] ∧ sC2b.freed ≠ sC2a.freed :=
  ⟨rfl, rfl, rfl, rfl, rfl, rfl, by decide⟩

theorem emplaceMap_fresh {m : List (Addr × Addr)} {k : Addr} (v : Addr)
    (h : lookupMap m k = none) :
    emplaceMap m k v = (true, (k, v), (k, v) :: m) := by
  unfold emplaceMap
  rw [find?_of_lookup_none h]

theorem emplaceMap_dup {m : List (Addr × Addr)} {k : Addr} (v : Addr) (e : Addr × Addr)
    (h : m.find? (fun e' => e'.1 = k) = some e) :
    emplaceMap m k v = (false, e, m) := by
  unfold emplaceMap
  rw [h]

/-- The fresh-registration path of the public vtable Install: when the probe
succeeds, the slot-held pointer is not yet captured and differs from the
replacement, the call reduces to the internal VTableHook install on the
extended slot table, with rollback of the new entry on failure. -/
theorem installVT_fresh (env : Env) (vt : Addr) (off : Nat) (q : Addr) (s : HMState)
    (hro : env.protOk (vt + off) PAGE_READONLY = true)
    (hfr : lookupMap s.sVTableAddresses (s.mem (vt + off)) = none)
    (hne : s.mem (vt + off) ≠ q) :
    InstallVTable env vt off q s =
      (InstallByType env (s.mem (vt + off)) q HookType.VTableHook
          { s with sVTableAddresses := (s.mem (vt + off), vt + off) :: s.sVTableAddresses }).map
        (fun r =>
          if r.1 = Hook.Status.Success then (true, r.2)
          else (false,
            { r.2 with sVTableAddresses := eraseMap r.2.sVTableAddresses (s.mem (vt + off)) })) := by
  unfold InstallVTable
  rw [if_pos hro]
  simp only [emplaceMap_fresh (vt + off) hfr]
  simp [hne]

/-- C7: vtable slot round-trip.  For a slot currently holding original
pointer p that is not yet captured in the slot table, registering the slot
and installing replacement q makes the slot hold q; the subsequent global
Uninstall writes p back into the slot, removes the slot-table entry for p,
and empties the hook table. -/
theorem spec_C7_vtable_roundtrip (env : Env) (vt : Addr) (off : Nat) (p q : Addr)
    (s : HMState)
    (hmem : s.mem (vt + off) = p)
    (hp0 : p ≠ 0) (hq0 : q ≠ 0) (hpq : p ≠ q)
    (hfresh : lookupMap s.sVTableAddresses p = none)
    (hro : env.protOk (vt + off) PAGE_READONLY = true)
    (hrw : env.protOk (vt + off) PAGE_READWRITE = true)
    (hhooks : s.sHooks = [])
    (hmod : s.sExportHookModule = none) :
    ∃ s₂ s₃,
      InstallVTable env vt off q s = some (true, s₂) ∧
      s₂.mem (vt + off) = q ∧
      UninstallAll env s₂ = some s₃ ∧
      s₃.mem (vt + off) = p ∧
      lookupMap s₃.sVTableAddresses p = none ∧
      s₃.sHooks = [] := by
  have hne : s.mem (vt + off) ≠ q := by rw [hmem]; exact hpq
  have hfr : lookupMap s.sVTableAddresses (s.mem (vt + off)) = none := by
    rw [hmem]; exact hfresh
  refine ⟨{ s with
      sVTableAddresses := (p, vt + off) :: s.sVTableAddresses,
      mem := memWrite s.mem (vt + off) q,
      sHooks := s.sHooks ++ [(mkHook p q, HookType.VTableHook)] },
    { s with
      sVTableAddresses := s.sVTableAddresses,
      mem := memWrite (memWrite s.mem (vt + off) q) (vt + off) p,
      sHooks := [] }, ?_, ?_, ?_, ?_, ?_, ?_⟩
  · rw [installVT_fresh env vt off q s hro hfr hne, hmem,
      installByType_vt_pos env p q _ (vt + off)
        (lookupMap_cons_self p (vt + off) s.sVTableAddresses) hrw]
    simp only [Option.map_some']
    rfl
  · simp [memWrite]
  · unfold UninstallAll
    have hi : (mkHook p q).IsInstalled = true := by
      simp [Hook.IsInstalled, mkHook, hp0]
    have hl : lookupMap ((p, vt + off) :: s.sVTableAddresses) p = some (vt + off) :=
      lookupMap_cons_self p (vt + off) s.sVTableAddresses
    have herase : eraseMap ((p, vt + off) :: s.sVTableAddresses) p = s.sVTableAddresses :=
      eraseMap_cons_self (vt + off) (lookup_none_no_key hfresh)
    simp only [hhooks, List.nil_append, List.foldlM_cons, List.foldlM_nil]
    rw [uninstallHook_vt_pos env (mkHook p q)
      { s with
        sVTableAddresses := (p, vt + off) :: s.sVTableAddresses,
        mem := memWrite s.mem (vt + off) q,
        sHooks := [(mkHook p q, HookType.VTableHook)] } (vt + off) hi hl hrw]
    simp only [Option.map_some', Option.bind_some, Option.pure_def]
    rw [show (mkHook p q).Target = p from rfl] at *
    simp only [herase]
    simp [hmod]
  · simp [memWrite]
  · exact hfresh
  · rfl

/-- C7 witness: the spec scenario, slot 0x2000 holding 0x3000, replacement
0x4000, followed by the global Uninstall. -/
theorem spec_C7_witness :
    ∃ s₂ s₃,
      InstallVTable env0 0x2000 0 0x4000 sC7 = some (true, s₂) ∧
      s₂.mem (0x2000 + 0) = 0x4000 ∧
      UninstallAll env0 s₂ = some s₃ ∧
      s₃.mem (0x2000 + 0) = 0x3000 ∧
      lookupMap s₃.sVTableAddresses 0x3000 = none ∧
      s₃.sHooks = [] :=
  spec_C7_vtable_roundtrip env0 0x2000 0 0x3000 0x4000 sC7 rfl (by decide) (by decide)
    (by decide) rfl rfl rfl rfl rfl

/-- C8: when the PAGE_READWRITE permission change fails during a VTableHook
install, the public vtable Install fails and leaves the state exactly as
before the call (no hook recorded, the freshly inserted slot-table entry
rolled back), and the internal install reports MemoryProtectionFailure
without touching the state it was given. -/
theorem spec_C8_prot_failure (env : Env) (vt : Addr) (off : Nat) (q : Addr) (s : HMState)
    (hro : env.protOk (vt + off) PAGE_READONLY = true)
    (hrw : env.protOk (vt + off) PAGE_READWRITE = false)
    (hfresh : lookupMap s.sVTableAddresses (s.mem (vt + off)) = none)
    (hne : s.mem (vt + off) ≠ q) :
    InstallVTable env vt off q s = some (false, s) ∧
    InstallByType env (s.mem (vt + off)) q HookType.VTableHook
        { s with sVTableAddresses := (s.mem (vt + off), vt + off) :: s.sVTableAddresses } =
      some (Hook.Status.MemoryProtectionFailure,
        { s with sVTableAddresses := (s.mem (vt + off), vt + off) :: s.sVTableAddresses }) := by
  have hl : lookupMap ((s.mem (vt + off), vt + off) :: s.sVTableAddresses)
      (s.mem (vt + off)) = some (vt + off) :=
    lookupMap_cons_self (s.mem (vt + off)) (vt + off) s.sVTableAddresses
  have h2 := installByType_vt_protfail env (s.mem (vt + off)) q
    { s with sVTableAddresses := (s.mem (vt + off), vt + off) :: s.sVTableAddresses }
    (vt + off) hl hrw
  refine ⟨?_, h2⟩
  rw [installVT_fresh env vt off q s hro hfresh hne, h2]
  have herase : eraseMap ((s.mem (vt + off), vt + off) :: s.sVTableAddresses)
      (s.mem (vt + off)) = s.sVTableAddresses :=
    eraseMap_cons_self (vt + off) (lookup_none_no_key hfresh)
  simp [herase]

/-- C8 witness: the C7 slot scenario under an environment that refuses the
read-write permission change. -/
theorem spec_C8_witness :
    InstallVTable envC8 0x2000 0 0x4000 sC7 = some (false, sC7) ∧
    InstallByType envC8 (sC7.mem (0x2000 + 0)) 0x4000 HookType.VTableHook
        { sC7 with sVTableAddresses :=
            (sC7.mem (0x2000 + 0), 0x2000 + 0) :: sC7.sVTableAddresses } =
      some (Hook.Status.MemoryProtectionFailure,
        { sC7 with sVTableAddresses :=
            (sC7.mem (0x2000 + 0), 0x2000 + 0) :: sC7.sVTableAddresses }) :=
  spec_C8_prot_failure envC8 0x2000 0 0x4000 sC7 rfl rfl rfl (by decide)

theorem foldInstall_all_success (env : Env) (hp : ∀ a, env.patch a = true) :
    ∀ (l : List (Addr × Addr)) (c : Nat) (s : HMState),
      l.foldlM (installStep env HookType.FunctionHook) (c, s) =
        some (c + l.length,
          { s with sHooks := s.sHooks ++
              l.map (fun mt => (mkHook mt.1 mt.2, HookType.FunctionHook)) }) := by
  intro l
  induction l with
  | nil =>
    intro c s
    simp only [List.map_nil, List.append_nil]
    rfl
  | cons mt l ih =>
    intro c s
    rw [List.foldlM_cons]
    have hstep : installStep env HookType.FunctionHook (c, s) mt =
        some (c + 1,
          { s with sHooks := s.sHooks ++ [(mkHook mt.1 mt.2, HookType.FunctionHook)] }) := by
      unfold installStep
      rw [installByType_fn_pos env mt.1 mt.2 s (hp mt.1)]
      rfl
    rw [hstep]
    show l.foldlM (installStep env HookType.FunctionHook)
        (c + 1, { s with sHooks := s.sHooks ++ [(mkHook mt.1 mt.2, HookType.FunctionHook)] }) = _
    rw [ih]
    have harith : c + 1 + l.length = c + (l.length + 1) := by omega
    simp [harith, List.append_assoc]

theorem analyzeMatches_length (tex rex : List ModuleExport) :
    (analyzeMatches tex rex).length = tex.countP (HookableExport rex) := by
  induction tex with
  | nil => rfl
  | cons sym l ih =>
    rw [List.countP_cons]
    cases hn : sym.Name with
    | none =>
      have hH : HookableExport rex sym = false := by
        simp [HookableExport, hn]
      have hfs : analyzeMatches (sym :: l) rex = analyzeMatches l rex := by
        unfold analyzeMatches
        rw [List.filterMap_cons]
        simp [hn]
      rw [hfs, hH, ih]
      rfl
    | some nm =>
      by_cases ha : sym.Address = 0
      · have hH : HookableExport rex sym = false := by
          simp [HookableExport, ha]
        have hfs : analyzeMatches (sym :: l) rex = analyzeMatches l rex := by
          unfold analyzeMatches
          rw [List.filterMap_cons]
          simp [hn, ha]
        rw [hfs, hH, ih]
        rfl
      · cases hf : rex.find? (fun it => cStrEquals it.Name (some nm)) with
        | none =>
          have hany : (rex.any fun it => cStrEquals it.Name (some nm)) = false := by
            rw [List.any_eq_false]
            intro x hx
            simpa using List.find?_eq_none.mp hf x hx
          have hH : HookableExport rex sym = false := by
            simp only [HookableExport, hn, hany]
            simp
          have hfs : analyzeMatches (sym :: l) rex = analyzeMatches l rex := by
            unfold analyzeMatches
            rw [List.filterMap_cons]
            simp [hn, ha, hf]
          rw [hfs, hH, ih]
          rfl
        | some it =>
          have hany : (rex.any fun it' => cStrEquals it'.Name (some nm)) = true := by
            rw [List.any_eq_true]
            refine ⟨it, List.mem_of_find?_eq_some hf, ?_⟩
            simpa using List.find?_some hf
          by_cases hd : denylisted nm = true
          · have hH : HookableExport rex sym = false := by
              simp only [HookableExport, hn, hany]
              simp [hd]
            have hfs : analyzeMatches (sym :: l) rex = analyzeMatches l rex := by
              unfold analyzeMatches
              rw [List.filterMap_cons]
              simp [hn, ha, hf, hd]
            rw [hfs, hH, ih]
            rfl
          · have hH : HookableExport rex sym = true := by
              simp only [HookableExport, hn, hany]
              simp [ha, hd]
            have hfs : analyzeMatches (sym :: l) rex =
                (sym.Address, it.Address) :: analyzeMatches l rex := by
              unfold analyzeMatches
              rw [List.filterMap_cons]
              simp [hn, ha, hf, hd]
            rw [hfs, hH]
            simp [ih]

/-- C5: with an always-succeeding strategy, bulk install over a module pair
appends exactly one FunctionHook per analysis match, reports success exactly
when there was at least one, and the number of matches equals the number of
target exports that have a nonnull name and address, a same-named
(case-sensitive) replacement export, and are not on the fixed denylist. -/
theorem spec_C5_bulk (env : Env) (tm rm : ModuleImage) (s : HMState)
    (hp : ∀ a, env.patch a = true) :
    ∃ s', InstallModulePair env tm rm HookType.FunctionHook s =
        some (decide ((analyzeMatches (GetModuleExports tm) (GetModuleExports rm)).length ≠ 0), s') ∧
      s'.sHooks = s.sHooks ++
        (analyzeMatches (GetModuleExports tm) (GetModuleExports rm)).map
          (fun mt => (mkHook mt.1 mt.2, HookType.FunctionHook)) ∧
      (analyzeMatches (GetModuleExports tm) (GetModuleExports rm)).length =
        (GetModuleExports tm).countP (HookableExport (GetModuleExports rm)) := by
  simp only [InstallModulePair]
  by_cases he : (GetModuleExports tm).isEmpty = true
  · have hnil : GetModuleExports tm = [] := by
      cases hx : GetModuleExports tm with
      | nil => rfl
      | cons a l => rw [hx] at he; simp [List.isEmpty] at he
    refine ⟨s, ?_, ?_, analyzeMatches_length _ _⟩
    · rw [if_pos he]
      simp [hnil, analyzeMatches]
    · simp [hnil, analyzeMatches]
  · rw [if_neg he]
    refine ⟨{ s with
        sHooks := s.sHooks ++
            (analyzeMatches (GetModuleExports tm) (GetModuleExports rm)).map
              (fun mt => (mkHook mt.1 mt.2, HookType.FunctionHook)) },
      ?_, rfl, analyzeMatches_length _ _⟩
    rw [foldInstall_all_success env hp]
    simp

/-- C5 witness: the spec scenario, target exporting Foo at 0x100 and Bar at
0x200 against a replacement exporting Foo at 0x900 and Baz at 0x910, yields
exactly one installed hook, for Foo, from 0x100 to 0x900. -/
theorem spec_C5_witness :
    (∃ s', InstallModulePair envC6 tmodC5 rmodC5 HookType.FunctionHook s0 =
        some (decide ((analyzeMatches (GetModuleExports tmodC5) (GetModuleExports rmodC5)).length ≠ 0), s') ∧
      s'.sHooks = s0.sHooks ++
        (analyzeMatches (GetModuleExports tmodC5) (GetModuleExports rmodC5)).map
          (fun mt => (mkHook mt.1 mt.2, HookType.FunctionHook)) ∧
      (analyzeMatches (GetModuleExports tmodC5) (GetModuleExports rmodC5)).length =
        (GetModuleExports tmodC5).countP (HookableExport (GetModuleExports rmodC5))) ∧
    analyzeMatches (GetModuleExports tmodC5) (GetModuleExports rmodC5) = [(0x100, 0x900)] ∧
    (GetModuleExports tmodC5).countP (HookableExport (GetModuleExports rmodC5)) = 1 :=
  ⟨spec_C5_bulk envC6 tmodC5 rmodC5 s0 (fun _ => rfl), by decide, by decide⟩

theorem bind_some_eq {α β : Type} (a : α) (f : α → Option β) :
    (some a >>= f) = f a := rfl

theorem installStep_shape (env : Env) (method : HookType) (hm : method ≠ HookType.VTableHook)
    (c : Nat) (s : HMState) (mt : Addr × Addr) :
    (installStep env method (c, s) mt = some (c + 1,
        { s with sHooks := s.sHooks ++ [(mkHook mt.1 mt.2, method)] })) ∨
    (installStep env method (c, s) mt = some (c, s)) := by
  cases method with
  | VTableHook => exact absurd rfl hm
  | Export =>
    left
    unfold installStep
    rw [installByType_export_eq]
    rfl
  | FunctionHook =>
    cases hp : env.patch mt.1 with
    | true =>
      left
      unfold installStep
      rw [installByType_fn_pos env mt.1 mt.2 s hp]
      rfl
    | false =>
      right
      unfold installStep
      rw [installByType_fn_neg env mt.1 mt.2 s hp]
      rfl

theorem foldInstall_shape (env : Env) (method : HookType) (hm : method ≠ HookType.VTableHook) :
    ∀ (l : List (Addr × Addr)) (c : Nat) (s : HMState),
      ∃ (extra : List (Hook × HookType)) (s' : HMState),
        l.foldlM (installStep env method) (c, s) = some (c + extra.length, s') ∧
        s' = { s with sHooks := s.sHooks ++ extra } ∧
        ∀ e ∈ extra, e.2 = method := by
  intro l
  induction l with
  | nil =>
    intro c s
    exact ⟨[], s, rfl, by simp, by simp⟩
  | cons mt l ih =>
    intro c s
    rcases installStep_shape env method hm c s mt with hstep | hstep
    · obtain ⟨extra, s', h1, h2, h3⟩ := ih (c + 1)
        { s with sHooks := s.sHooks ++ [(mkHook mt.1 mt.2, method)] }
      refine ⟨(mkHook mt.1 mt.2, method) :: extra, s', ?_, ?_, ?_⟩
      · rw [List.foldlM_cons, hstep, bind_some_eq, h1]
        have harith : c + 1 + extra.length = c + (extra.length + 1) := by omega
        simp [harith]
      · rw [h2]
        simp [List.append_assoc]
      · intro e he
        rcases List.mem_cons.mp he with he | he
        · rw [he]
        · exact h3 e he
    · obtain ⟨extra, s', h1, h2, h3⟩ := ih c s
      refine ⟨extra, s', ?_, h2, h3⟩
      rw [List.foldlM_cons, hstep, bind_some_eq, h1]

theorem bulk_shape (env : Env) (tm rm : ModuleImage) (method : HookType) (s : HMState)
    (hm : method ≠ HookType.VTableHook) :
    ∃ (extra : List (Hook × HookType)) (s' : HMState),
      InstallModulePair env tm rm method s = some (decide (extra.length ≠ 0), s') ∧
      s' = { s with sHooks := s.sHooks ++ extra } ∧
      ∀ e ∈ extra, e.2 = method := by
  simp only [InstallModulePair]
  by_cases he : (GetModuleExports tm).isEmpty = true
  · refine ⟨[], s, ?_, by simp, by simp⟩
    rw [if_pos he]
    rfl
  · rw [if_neg he]
    obtain ⟨extra, s', h1, h2, h3⟩ := foldInstall_shape env method hm
      (analyzeMatches (GetModuleExports tm) (GetModuleExports rm)) 0 s
    refine ⟨extra, s', ?_, h2, h3⟩
    rw [h1, bind_some_eq]
    show some (decide (0 + extra.length ≠ 0), s') = some (decide (extra.length ≠ 0), s')
    rw [Nat.zero_add]

theorem installFn_noop (env : Env) (t r : Addr) (s : HMState)
    (h : (Find r s).IsInstalled = true) :
    ∃ b, InstallFn env t r s = some (b, s) := by
  unfold InstallFn
  by_cases htr : t = r
  · exact ⟨false, by rw [if_pos htr]⟩
  · exact ⟨decide (t = (Find r s).Target), by rw [if_neg htr, if_pos h]⟩

theorem eraseP_append_singleton {α : Type} (p : α → Bool) (l : List α) (x : α)
    (hl : ∀ a ∈ l, p a = false) (hx : p x = true) :
    (l ++ [x]).eraseP p = l := by
  induction l with
  | nil => simp [List.eraseP_cons, hx]
  | cons a l ih =>
    have ha := hl a (List.mem_cons_self a l)
    rw [List.cons_append, List.eraseP_cons, ha]
    simp only [cond_false]
    rw [ih (fun b hb => hl b (List.mem_cons_of_mem _ hb))]

theorem call_no_pending (env : Env) (r : Addr) (s : HMState)
    (hpath : s.sExportHookPath = none) :
    Call env r s =
      if (Find r s).IsValid then some ((Find r s).Trampoline, s) else some (0, s) := by
  unfold Call
  rw [hpath]
  rfl

/-- C6: registering a not-yet-loaded target path (with the two load-watch
hooks already installed) installs no hooks and only queues the path; a later
load event through HookLoadLibraryA whose file stem matches the pending path
case-insensitively runs bulk installation against the newly loaded module,
and the pending entry is removed exactly when the install count is nonzero
(a zero-count match leaves the entry pending). -/
theorem spec_C6_delayed (env : Env) (p loadName : FsPath) (s : HMState) (tmod : ModuleImage)
    (hA : Find env.HookLoadLibraryA_addr s =
      { Target := env.LoadLibraryA_addr, Replacement := env.HookLoadLibraryA_addr,
        Trampoline := env.LoadLibraryA_addr, Enabled := true })
    (hW : (Find env.HookLoadLibraryW_addr s).IsInstalled = true)
    (hla : env.LoadLibraryA_addr ≠ 0) (hha : env.HookLoadLibraryA_addr ≠ 0)
    (hne : env.LoadLibraryA_addr ≠ env.HookLoadLibraryA_addr)
    (hstem : iequals p.stem env.curPath.stem = false)
    (hnot : env.getModuleHandle p.full = none)
    (hpath : s.sExportHookPath = none)
    (hload : env.loadA loadName.full = some tmod)
    (hmatch : iequals p.stem loadName.stem = true)
    (hold : ∀ q ∈ s.sDelayedHookPaths, iequals q.stem loadName.stem = false) :
    Register env p s = some { s with sDelayedHookPaths := s.sDelayedHookPaths ++ [p] } ∧
    ∃ (extra : List (Hook × HookType)) (s' : HMState),
      HookLoadLibraryA env loadName { s with sDelayedHookPaths := s.sDelayedHookPaths ++ [p] } =
        some (some tmod, s') ∧
      s'.sHooks = s.sHooks ++ extra ∧
      (∀ e ∈ extra, e.2 = HookType.FunctionHook) ∧
      s'.sDelayedHookPaths =
        (if extra.length = 0 then s.sDelayedHookPaths ++ [p] else s.sDelayedHookPaths) := by
  have hAins : (Find env.HookLoadLibraryA_addr s).IsInstalled = true := by
    rw [hA]
    simp [Hook.IsInstalled, hla]
  obtain ⟨b₁, h₁⟩ := installFn_noop env env.LoadLibraryA_addr env.HookLoadLibraryA_addr s hAins
  obtain ⟨b₂, h₂⟩ := installFn_noop env env.LoadLibraryW_addr env.HookLoadLibraryW_addr s hW
  constructor
  · unfold Register
    rw [h₁, bind_some_eq]
    simp only []
    rw [h₂, bind_some_eq]
    simp only []
    rw [if_neg (by simp [hstem]), hnot]
    rfl
  · set s₂ : HMState := { s with sDelayedHookPaths := s.sDelayedHookPaths ++ [p] } with hs₂
    have hA₂ : Find env.HookLoadLibraryA_addr s₂ =
        { Target := env.LoadLibraryA_addr, Replacement := env.HookLoadLibraryA_addr,
          Trampoline := env.LoadLibraryA_addr, Enabled := true } := hA
    have hvalid : (Find env.HookLoadLibraryA_addr s₂).IsValid = true := by
      rw [hA₂]
      simp [Hook.IsValid, hla, hha, hne]
    have hcall : Call env env.HookLoadLibraryA_addr s₂ =
        some (env.LoadLibraryA_addr, s₂) := by
      rw [call_no_pending env env.HookLoadLibraryA_addr s₂ hpath, if_pos hvalid, hA₂]
    have hany : (s₂.sDelayedHookPaths.any fun q => iequals q.stem loadName.stem) = true := by
      show ((s.sDelayedHookPaths ++ [p]).any fun q => iequals q.stem loadName.stem) = true
      rw [List.any_append]
      simp [hmatch]
    obtain ⟨extra, s₃, hbulk, hs₃, hextra⟩ :=
      bulk_shape env tmod env.curModule HookType.FunctionHook s₂ (by decide)
    have hs₃hooks : s₃.sHooks = s.sHooks ++ extra := by rw [hs₃]
    have hs₃pend : s₃.sDelayedHookPaths = s.sDelayedHookPaths ++ [p] := by rw [hs₃]
    have hany' : ((s.sDelayedHookPaths ++ [p]).any fun q => iequals q.stem loadName.stem) = true := by
      rw [List.any_append]
      simp [hmatch]
    by_cases hlen : extra.length = 0
    · refine ⟨extra, s₃, ?_, hs₃hooks, hextra, ?_⟩
      · unfold HookLoadLibraryA
        rw [hcall, bind_some_eq]
        simp only []
        simp only [if_true, hload]
        simp only [hany', if_true]
        rw [hbulk, bind_some_eq]
        simp only [hlen]
        rfl
      · rw [hs₃pend, if_pos hlen]
    · refine ⟨extra,
        { s₃ with sDelayedHookPaths :=
            s₃.sDelayedHookPaths.eraseP fun q => iequals q.stem loadName.stem },
        ?_, hs₃hooks, hextra, ?_⟩
      · unfold HookLoadLibraryA
        rw [hcall, bind_some_eq]
        simp only []
        simp only [if_true, hload]
        simp only [hany', if_true]
        rw [hbulk, bind_some_eq]
        have hdec : decide (extra.length ≠ 0) = true := by simp [hlen]
        simp only [hdec]
        rfl
      · show (s₃.sDelayedHookPaths.eraseP fun q => iequals q.stem loadName.stem) = _
        rw [hs₃pend, eraseP_append_singleton _ _ _ hold hmatch, if_neg hlen]

/-- C6 witness: registering d3d9.dll while it is not loaded queues it; the
load event for D3D9.dll (case-insensitive stem match) triggers the bulk
install against the loaded module. -/
theorem spec_C6_witness :
    Register envC6 pC6 sC6 =
      some { sC6 with sDelayedHookPaths := sC6.sDelayedHookPaths ++ [pC6] } ∧
    ∃ (extra : List (Hook × HookType)) (s' : HMState),
      HookLoadLibraryA envC6 nameC6
          { sC6 with sDelayedHookPaths := sC6.sDelayedHookPaths ++ [pC6] } =
        some (some tmodC5, s') ∧
      s'.sHooks = sC6.sHooks ++ extra ∧
      (∀ e ∈ extra, e.2 = HookType.FunctionHook) ∧
      s'.sDelayedHookPaths =
        (if extra.length = 0 then sC6.sDelayedHookPaths ++ [pC6] else sC6.sDelayedHookPaths) :=
  spec_C6_delayed envC6 pC6 nameC6 sC6 tmodC5 rfl rfl (by decide) (by decide) (by decide)
    (by decide) rfl rfl rfl (by decide) (by simp [sC6, s0, initState])

theorem lookupMap_isSome_cons (e : Addr × Addr) (m : List (Addr × Addr)) (k : Addr)
    (h : (lookupMap m k).isSome = true) : (lookupMap (e :: m) k).isSome = true := by
  by_cases hek : e.1 = k
  · show (lookupMap ((e.1, e.2) :: m) k).isSome = true
    rw [hek, lookupMap_cons_self]
    rfl
  · show (lookupMap ((e.1, e.2) :: m) k).isSome = true
    rw [lookupMap_cons_ne e.2 m hek]
    exact h

theorem inv_of_fields {s s' : HMState} (hinv : VTableInv s)
    (hh : s'.sHooks = s.sHooks) (hm : s'.sVTableAddresses = s.sVTableAddresses) :
    VTableInv s' := by
  unfold VTableInv at hinv ⊢
  rw [hh, hm]
  exact hinv

theorem inv_of_nonVT {s s' : HMState} (hinv : VTableInv s) (hstep : NonVTStep s s') :
    VTableInv s' := by
  obtain ⟨hmap, extra, hhooks, hex⟩ := hstep
  constructor
  · intro pr hpr hvt
    rw [hmap]
    rw [hhooks] at hpr
    rcases List.mem_append.mp hpr with hold | hnew
    · exact hinv.1 pr hold hvt
    · exact absurd hvt (hex pr hnew)
  · rw [hhooks, List.filter_append]
    have hnil : extra.filter (fun pr => pr.2 == HookType.VTableHook) = [] := by
      rw [List.filter_eq_nil]
      intro pr hpr
      simp [hex pr hpr]
    rw [hnil, List.append_nil]
    exact hinv.2

theorem nonVT_refl (s : HMState) : NonVTStep s s :=
  ⟨rfl, [], by simp, by simp⟩

theorem nonVT_same_tables {s s' : HMState}
    (hmap : s'.sVTableAddresses = s.sVTableAddresses) (hhooks : s'.sHooks = s.sHooks) :
    NonVTStep s s' :=
  ⟨hmap, [], by rw [hhooks, List.append_nil], by simp⟩

theorem nonVT_trans {s₁ s₂ s₃ : HMState}
    (h12 : NonVTStep s₁ s₂) (h23 : NonVTStep s₂ s₃) : NonVTStep s₁ s₃ := by
  obtain ⟨hm12, e12, hh12, hex12⟩ := h12
  obtain ⟨hm23, e23, hh23, hex23⟩ := h23
  refine ⟨hm23.trans hm12, e12 ++ e23, ?_, ?_⟩
  · rw [hh23, hh12, List.append_assoc]
  · intro e he
    rcases List.mem_append.mp he with he | he
    · exact hex12 e he
    · exact hex23 e he

theorem installVT_protro_fail (env : Env) (vt : Addr) (off : Nat) (q : Addr) (s : HMState)
    (hro : env.protOk (vt + off) PAGE_READONLY = false) :
    InstallVTable env vt off q s = some (false, s) := by
  unfold InstallVTable
  rw [if_neg (by simp [hro])]

theorem installVT_dup (env : Env) (vt : Addr) (off : Nat) (q : Addr) (s : HMState)
    (e : Addr × Addr)
    (hfind : s.sVTableAddresses.find? (fun e' => e'.1 = s.mem (vt + off)) = some e)
    (hro : env.protOk (vt + off) PAGE_READONLY = true) :
    InstallVTable env vt off q s = some (true, s) := by
  unfold InstallVTable
  rw [if_pos hro]
  simp only [emplaceMap_dup (vt + off) e hfind]
  have he : e.1 = s.mem (vt + off) := by simpa using List.find?_some hfind
  simp [he]

theorem installVT_self (env : Env) (vt : Addr) (off : Nat) (q : Addr) (s : HMState)
    (hro : env.protOk (vt + off) PAGE_READONLY = true)
    (hfr : lookupMap s.sVTableAddresses (s.mem (vt + off)) = none)
    (heq : s.mem (vt + off) = q) :
    InstallVTable env vt off q s = some (false, s) := by
  unfold InstallVTable
  rw [if_pos hro]
  simp only [emplaceMap_fresh (vt + off) hfr]
  have herase : eraseMap ((s.mem (vt + off), vt + off) :: s.sVTableAddresses)
      (s.mem (vt + off)) = s.sVTableAddresses :=
    eraseMap_cons_self (vt + off) (lookup_none_no_key hfr)
  have herase' : eraseMap ((q, vt + off) :: s.sVTableAddresses) q = s.sVTableAddresses := by
    rw [← heq]
    exact herase
  simp [heq, herase']

theorem installVT_inv (env : Env) (vt : Addr) (off : Nat) (q : Addr) (s : HMState)
    {b : Bool} {s' : HMState} (hinv : VTableInv s)
    (h : InstallVTable env vt off q s = some (b, s')) : VTableInv s' := by
  cases hro : env.protOk (vt + off) PAGE_READONLY with
  | false =>
    rw [installVT_protro_fail env vt off q s hro] at h
    injection h with h'
    injection h' with hb hs
    exact hs ▸ hinv
  | true =>
    cases hfind : s.sVTableAddresses.find? (fun e' => e'.1 = s.mem (vt + off)) with
    | some e =>
      rw [installVT_dup env vt off q s e hfind hro] at h
      injection h with h'
      injection h' with hb hs
      exact hs ▸ hinv
    | none =>
      have hfr : lookupMap s.sVTableAddresses (s.mem (vt + off)) = none := by
        unfold lookupMap
        rw [hfind]
        rfl
      by_cases heq : s.mem (vt + off) = q
      · rw [installVT_self env vt off q s hro hfr heq] at h
        injection h with h'
        injection h' with hb hs
        exact hs ▸ hinv
      · rw [installVT_fresh env vt off q s hro hfr heq] at h
        cases hrw : env.protOk (vt + off) PAGE_READWRITE with
        | true =>
          rw [installByType_vt_pos env (s.mem (vt + off)) q _ (vt + off)
            (lookupMap_cons_self (s.mem (vt + off)) (vt + off) s.sVTableAddresses) hrw] at h
          have h' : some ((true : Bool),
              ({ s with
                sVTableAddresses := (s.mem (vt + off), vt + off) :: s.sVTableAddresses,
                mem := memWrite s.mem (vt + off) q,
                sHooks := s.sHooks ++
                  [(mkHook (s.mem (vt + off)) q, HookType.VTableHook)] } : HMState)) =
              some (b, s') := h
          injection h' with h''
          injection h'' with hb hs
          rw [← hs]
          constructor
          · intro pr hpr hvt
            show (lookupMap ((s.mem (vt + off), vt + off) :: s.sVTableAddresses)
              pr.1.Target).isSome = true
            rcases List.mem_append.mp hpr with hold | hnew
            · exact lookupMap_isSome_cons _ _ _ (hinv.1 pr hold hvt)
            · have hpr' : pr = (mkHook (s.mem (vt + off)) q, HookType.VTableHook) := by
                simpa using hnew
              rw [hpr']
              show (lookupMap ((s.mem (vt + off), vt + off) :: s.sVTableAddresses)
                (s.mem (vt + off))).isSome = true
              rw [lookupMap_cons_self]
              rfl
          · show List.Pairwise (· ≠ ·)
              (((s.sHooks ++ [(mkHook (s.mem (vt + off)) q, HookType.VTableHook)]).filter
                (fun p => p.2 == HookType.VTableHook)).map (fun p => p.1.Target))
            rw [List.filter_append, List.map_append, List.pairwise_append]
            refine ⟨hinv.2, by simp, ?_⟩
            intro a ha bb hb
            have hbb : bb = s.mem (vt + off) := by
              simp [mkHook] at hb
              exact hb
            rcases List.mem_map.mp ha with ⟨pr, hprmem, hpr⟩
            have hprf := List.mem_filter.mp hprmem
            have hvt : pr.2 = HookType.VTableHook := by simpa using hprf.2
            have hsome := hinv.1 pr hprf.1 hvt
            intro hcon
            rw [hcon, hbb] at hpr
            rw [hpr, hfr] at hsome
            simp at hsome
        | false =>
          rw [installByType_vt_protfail env (s.mem (vt + off)) q _ (vt + off)
            (lookupMap_cons_self (s.mem (vt + off)) (vt + off) s.sVTableAddresses) hrw] at h
          have h' : some ((false : Bool),
              ({ s with
                sVTableAddresses :=
                    eraseMap ((s.mem (vt + off), vt + off) :: s.sVTableAddresses)
                      (s.mem (vt + off)) } : HMState)) =
              some (b, s') := h
          injection h' with h''
          injection h'' with hb hs
          apply inv_of_fields hinv
          · rw [← hs]
          · rw [← hs]
            show eraseMap ((s.mem (vt + off), vt + off) :: s.sVTableAddresses)
              (s.mem (vt + off)) = s.sVTableAddresses
            exact eraseMap_cons_self (vt + off) (lookup_none_no_key hfr)

theorem bind_eq_some_destruct {α β : Type} {x : Option α} {f : α → Option β} {b : β}
    (h : (x >>= f) = some b) : ∃ a, x = some a ∧ f a = some b := by
  cases x with
  | none => exact absurd (h : (none : Option β) = some b) (by simp)
  | some a => exact ⟨a, rfl, h⟩

theorem installByType_nonVT (env : Env) (t r : Addr) (method : HookType) (s : HMState)
    {st : Hook.Status} {s' : HMState} (hm : method ≠ HookType.VTableHook)
    (h : InstallByType env t r method s = some (st, s')) : NonVTStep s s' := by
  cases method with
  | VTableHook => exact absurd rfl hm
  | Export =>
    rw [installByType_export_eq] at h
    injection h with h'
    injection h' with hst hs
    rw [← hs]
    exact ⟨rfl, [(mkHook t r, HookType.Export)], rfl, by simp⟩
  | FunctionHook =>
    cases hp : env.patch t with
    | true =>
      rw [installByType_fn_pos env t r s hp] at h
      injection h with h'
      injection h' with hst hs
      rw [← hs]
      exact ⟨rfl, [(mkHook t r, HookType.FunctionHook)], rfl, by simp⟩
    | false =>
      rw [installByType_fn_neg env t r s hp] at h
      injection h with h'
      injection h' with hst hs
      exact hs ▸ nonVT_refl s

theorem installFn_nonVT (env : Env) (t r : Addr) (s : HMState) {b : Bool} {s' : HMState}
    (h : InstallFn env t r s = some (b, s')) : NonVTStep s s' := by
  unfold InstallFn at h
  by_cases htr : t = r
  · rw [if_pos htr] at h
    injection h with h'
    injection h' with hb hs
    exact hs ▸ nonVT_refl s
  · rw [if_neg htr] at h
    by_cases hins : (Find r s).IsInstalled = true
    · rw [if_pos hins] at h
      injection h with h'
      injection h' with hb hs
      exact hs ▸ nonVT_refl s
    · rw [if_neg hins] at h
      cases hIB : InstallByType env t r HookType.FunctionHook s with
      | none =>
        rw [hIB] at h
        exact absurd h (by simp)
      | some r' =>
        rw [hIB] at h
        simp only [Option.map_some'] at h
        injection h with h'
        injection h' with hb hs
        have hstep := installByType_nonVT env t r HookType.FunctionHook s (by decide)
          (show _ = some (r'.1, r'.2) from hIB)
        exact hs ▸ hstep

theorem bulk_nonVT (env : Env) (tm rm : ModuleImage) (method : HookType) (s : HMState)
    {b : Bool} {s' : HMState} (hm : method ≠ HookType.VTableHook)
    (h : InstallModulePair env tm rm method s = some (b, s')) : NonVTStep s s' := by
  obtain ⟨extra, s'', heq, hs'', hex⟩ := bulk_shape env tm rm method s hm
  rw [heq] at h
  injection h with h'
  injection h' with hb hs
  rw [← hs, hs'']
  exact ⟨rfl, extra, rfl, fun e he => by rw [hex e he]; exact hm⟩

theorem register_nonVT (env : Env) (p : FsPath) (s : HMState) {s' : HMState}
    (h : Register env p s = some s') : NonVTStep s s' := by
  unfold Register at h
  obtain ⟨r₁, h₁, h⟩ := bind_eq_some_destruct h
  have hn₁ := installFn_nonVT env _ _ s (show _ = some (r₁.1, r₁.2) from h₁)
  beta_reduce at h
  obtain ⟨r₂, h₂, h⟩ := bind_eq_some_destruct h
  have hn₂ := installFn_nonVT env _ _ r₁.2 (show _ = some (r₂.1, r₂.2) from h₂)
  beta_reduce at h
  refine nonVT_trans hn₁ (nonVT_trans hn₂ ?_)
  by_cases hiq : iequals p.stem env.curPath.stem = true
  · rw [if_pos hiq] at h
    injection h with hs
    rw [← hs]
    exact nonVT_same_tables rfl rfl
  · rw [if_neg hiq] at h
    cases hgm : env.getModuleHandle p.full with
    | some tm =>
      rw [hgm] at h
      have h' : (InstallModulePair env tm env.curModule HookType.FunctionHook r₂.2 >>=
          fun r₃ => pure r₃.2) = some s' := h
      obtain ⟨r₃, h₃, h''⟩ := bind_eq_some_destruct h'
      have hn₃ := bulk_nonVT env tm env.curModule HookType.FunctionHook r₂.2 (by decide)
        (show _ = some (r₃.1, r₃.2) from h₃)
      have hs : r₃.2 = s' := by
        injection (h'' : some r₃.2 = some s') with hs
      exact hs ▸ hn₃
    | none =>
      rw [hgm] at h
      have h' : (some { r₂.2 with
          sDelayedHookPaths := r₂.2.sDelayedHookPaths ++ [p] } : Option HMState) = some s' := h
      injection h' with hs
      rw [← hs]
      exact nonVT_same_tables rfl rfl

theorem call_tail_state {s₁ : HMState} {r tr : Addr} {s' : HMState}
    (h : (if (Find r s₁).IsValid = true then
        (pure ((Find r s₁).Trampoline, s₁) : Option (Addr × HMState))
      else pure (0, s₁)) = some (tr, s')) :
    s₁ = s' := by
  by_cases hv : (Find r s₁).IsValid = true
  · rw [if_pos hv] at h
    exact congrArg Prod.snd (Option.some.inj h)
  · rw [if_neg hv] at h
    exact congrArg Prod.snd (Option.some.inj h)

theorem call_nonVT (env : Env) (r : Addr) (s : HMState) {tr : Addr} {s' : HMState}
    (h : Call env r s = some (tr, s')) : NonVTStep s s' := by
  unfold Call at h
  cases hpath : s.sExportHookPath with
  | none =>
    rw [hpath] at h
    have h' : ((pure s : Option HMState) >>= fun s₁ =>
        if (Find r s₁).IsValid = true then
          (pure ((Find r s₁).Trampoline, s₁) : Option (Addr × HMState))
        else pure (0, s₁)) = some (tr, s') := h
    obtain ⟨s₁, hs₁, htail⟩ := bind_eq_some_destruct h'
    have hs₁' : s = s₁ := Option.some.inj hs₁
    have htv : s₁ = s' := call_tail_state htail
    rw [← htv, ← hs₁']
    exact nonVT_refl s
  | some path =>
    rw [hpath] at h
    have h₂ : (match env.loadW path.full with
      | some m => (InstallModulePair env m env.curModule HookType.Export
            { s with sExportHookPath := (none : Option FsPath), sExportHookModule := some m } >>=
          fun rr => ((pure rr.2 : Option HMState) >>= fun s₁ =>
            if (Find r s₁).IsValid = true then
              (pure ((Find r s₁).Trampoline, s₁) : Option (Addr × HMState))
            else pure (0, s₁)))
      | none => ((pure { s with
            sExportHookPath := some path,
            sExportHookModule := (none : Option ModuleImage) } : Option HMState) >>= fun s₁ =>
          if (Find r s₁).IsValid = true then
            (pure ((Find r s₁).Trampoline, s₁) : Option (Addr × HMState))
          else pure (0, s₁))) = some (tr, s') := h
    cases hlw : env.loadW path.full with
    | none =>
      rw [hlw] at h₂
      have h₃ : ((pure { s with
          sExportHookPath := some path,
          sExportHookModule := (none : Option ModuleImage) } : Option HMState) >>= fun s₁ =>
          if (Find r s₁).IsValid = true then
            (pure ((Find r s₁).Trampoline, s₁) : Option (Addr × HMState))
          else pure (0, s₁)) = some (tr, s') := h₂
      obtain ⟨s₁, hs₁, htail⟩ := bind_eq_some_destruct h₃
      have hs₁' : ({ s with
          sExportHookPath := some path,
          sExportHookModule := (none : Option ModuleImage) } : HMState) = s₁ :=
        Option.some.inj hs₁
      have htv : s₁ = s' := call_tail_state htail
      rw [← htv, ← hs₁']
      exact nonVT_same_tables rfl rfl
    | some m =>
      rw [hlw] at h₂
      have h₃ : (InstallModulePair env m env.curModule HookType.Export
          { s with sExportHookPath := (none : Option FsPath), sExportHookModule := some m } >>=
          fun rr => ((pure rr.2 : Option HMState) >>= fun s₁ =>
            if (Find r s₁).IsValid = true then
              (pure ((Find r s₁).Trampoline, s₁) : Option (Addr × HMState))
            else pure (0, s₁))) = some (tr, s') := h₂
      obtain ⟨rr, hrr, h₄⟩ := bind_eq_some_destruct h₃
      have hb := bulk_nonVT env m env.curModule HookType.Export
        { s with sExportHookPath := (none : Option FsPath), sExportHookModule := some m }
        (by decide) (show _ = some (rr.1, rr.2) from hrr)
      obtain ⟨s₁, hs₁, htail⟩ := bind_eq_some_destruct h₄
      have hs₁' : rr.2 = s₁ := Option.some.inj hs₁
      have htv : s₁ = s' := call_tail_state htail
      have hmid : NonVTStep s { s with
          sExportHookPath := (none : Option FsPath),
          sExportHookModule := some m } := nonVT_same_tables rfl rfl
      refine nonVT_trans hmid ?_
      rw [← htv, ← hs₁']
      exact hb

theorem loadA_nonVT (env : Env) (p : FsPath) (s : HMState) {hmod : Option ModuleImage}
    {s' : HMState} (h : HookLoadLibraryA env p s = some (hmod, s')) : NonVTStep s s' := by
  unfold HookLoadLibraryA at h
  obtain ⟨c, hc, h⟩ := bind_eq_some_destruct h
  have hcall := call_nonVT env _ s (show _ = some (c.1, c.2) from hc)
  refine nonVT_trans hcall ?_
  have h' : (match (if c.1 = env.LoadLibraryA_addr then env.loadA p.full else none :
      Option ModuleImage) with
    | none => (pure ((none : Option ModuleImage), c.2) : Option (Option ModuleImage × HMState))
    | some m =>
      if (c.2.sDelayedHookPaths.any fun q => iequals q.stem p.stem) = true then
        InstallModulePair env m env.curModule HookType.FunctionHook c.2 >>= fun rr =>
          if rr.1 = true then
            pure (some m, { rr.2 with
              sDelayedHookPaths :=
                rr.2.sDelayedHookPaths.eraseP fun q => iequals q.stem p.stem })
          else pure (some m, rr.2)
      else pure (some m, c.2)) = some (hmod, s') := h
  cases hhandle : (if c.1 = env.LoadLibraryA_addr then env.loadA p.full else none :
      Option ModuleImage) with
  | none =>
    rw [hhandle] at h'
    have h2 : c.2 = s' :=
      congrArg Prod.snd (Option.some.inj h')
    rw [← h2]
    exact nonVT_refl c.2
  | some m =>
    rw [hhandle] at h'
    have h'' : (if (c.2.sDelayedHookPaths.any fun q => iequals q.stem p.stem) = true then
        InstallModulePair env m env.curModule HookType.FunctionHook c.2 >>= fun rr =>
          if rr.1 = true then
            pure (some m, { rr.2 with
              sDelayedHookPaths :=
                rr.2.sDelayedHookPaths.eraseP fun q => iequals q.stem p.stem })
          else pure (some m, rr.2)
      else (pure (some m, c.2) : Option (Option ModuleImage × HMState))) =
        some (hmod, s') := h'
    by_cases hany : (c.2.sDelayedHookPaths.any fun q => iequals q.stem p.stem) = true
    · rw [if_pos hany] at h''
      obtain ⟨rr, hrr, h₃⟩ := bind_eq_some_destruct h''
      have hb := bulk_nonVT env m env.curModule HookType.FunctionHook c.2 (by decide)
        (show _ = some (rr.1, rr.2) from hrr)
      refine nonVT_trans hb ?_
      by_cases hr1 : rr.1 = true
      · have h₄ : (pure (some m, { rr.2 with
            sDelayedHookPaths :=
              rr.2.sDelayedHookPaths.eraseP fun q => iequals q.stem p.stem }) :
            Option (Option ModuleImage × HMState)) = some (hmod, s') := by
          rw [← h₃]
          beta_reduce
          rw [if_pos hr1]
        have h5 : ({ rr.2 with
            sDelayedHookPaths :=
              rr.2.sDelayedHookPaths.eraseP fun q => iequals q.stem p.stem } : HMState) = s' :=
          congrArg Prod.snd (Option.some.inj h₄)
        rw [← h5]
        exact nonVT_same_tables rfl rfl
      · have h₄ : (pure (some m, rr.2) : Option (Option ModuleImage × HMState)) =
            some (hmod, s') := by
          rw [← h₃]
          beta_reduce
          rw [if_neg hr1]
        have h5 : rr.2 = s' := congrArg Prod.snd (Option.some.inj h₄)
        rw [← h5]
        exact nonVT_refl rr.2
    · rw [if_neg hany] at h''
      have h5 : c.2 = s' := congrArg Prod.snd (Option.some.inj h'')
      rw [← h5]
      exact nonVT_refl c.2

theorem loadW_nonVT (env : Env) (p : FsPath) (s : HMState) {hmod : Option ModuleImage}
    {s' : HMState} (h : HookLoadLibraryW env p s = some (hmod, s')) : NonVTStep s s' := by
  unfold HookLoadLibraryW at h
  obtain ⟨c, hc, h⟩ := bind_eq_some_destruct h
  have hcall := call_nonVT env _ s (show _ = some (c.1, c.2) from hc)
  refine nonVT_trans hcall ?_
  have h' : (match (if c.1 = env.LoadLibraryW_addr then env.loadW p.full else none :
      Option ModuleImage) with
    | none => (pure ((none : Option ModuleImage), c.2) : Option (Option ModuleImage × HMState))
    | some m =>
      if (c.2.sDelayedHookPaths.any fun q => iequals q.stem p.stem) = true then
        InstallModulePair env m env.curModule HookType.FunctionHook c.2 >>= fun rr =>
          if rr.1 = true then
            pure (some m, { rr.2 with
              sDelayedHookPaths :=
                rr.2.sDelayedHookPaths.eraseP fun q => iequals q.stem p.stem })
          else pure (some m, rr.2)
      else pure (some m, c.2)) = some (hmod, s') := h
  cases hhandle : (if c.1 = env.LoadLibraryW_addr then env.loadW p.full else none :
      Option ModuleImage) with
  | none =>
    rw [hhandle] at h'
    have h2 : c.2 = s' :=
      congrArg Prod.snd (Option.some.inj h')
    rw [← h2]
    exact nonVT_refl c.2
  | some m =>
    rw [hhandle] at h'
    have h'' : (if (c.2.sDelayedHookPaths.any fun q => iequals q.stem p.stem) = true then
        InstallModulePair env m env.curModule HookType.FunctionHook c.2 >>= fun rr =>
          if rr.1 = true then
            pure (some m, { rr.2 with
              sDelayedHookPaths :=
                rr.2.sDelayedHookPaths.eraseP fun q => iequals q.stem p.stem })
          else pure (some m, rr.2)
      else (pure (some m, c.2) : Option (Option ModuleImage × HMState))) =
        some (hmod, s') := h'
    by_cases hany : (c.2.sDelayedHookPaths.any fun q => iequals q.stem p.stem) = true
    · rw [if_pos hany] at h''
      obtain ⟨rr, hrr, h₃⟩ := bind_eq_some_destruct h''
      have hb := bulk_nonVT env m env.curModule HookType.FunctionHook c.2 (by decide)
        (show _ = some (rr.1, rr.2) from hrr)
      refine nonVT_trans hb ?_
      by_cases hr1 : rr.1 = true
      · have h₄ : (pure (some m, { rr.2 with
            sDelayedHookPaths :=
              rr.2.sDelayedHookPaths.eraseP fun q => iequals q.stem p.stem }) :
            Option (Option ModuleImage × HMState)) = some (hmod, s') := by
          rw [← h₃]
          beta_reduce
          rw [if_pos hr1]
        have h5 : ({ rr.2 with
            sDelayedHookPaths :=
              rr.2.sDelayedHookPaths.eraseP fun q => iequals q.stem p.stem } : HMState) = s' :=
          congrArg Prod.snd (Option.some.inj h₄)
        rw [← h5]
        exact nonVT_same_tables rfl rfl
      · have h₄ : (pure (some m, rr.2) : Option (Option ModuleImage × HMState)) =
            some (hmod, s') := by
          rw [← h₃]
          beta_reduce
          rw [if_neg hr1]
        have h5 : rr.2 = s' := congrArg Prod.snd (Option.some.inj h₄)
        rw [← h5]
        exact nonVT_refl rr.2
    · rw [if_neg hany] at h''
      have h5 : c.2 = s' := congrArg Prod.snd (Option.some.inj h'')
      rw [← h5]
      exact nonVT_refl c.2

theorem uninstallHook_fn_state (env : Env) (hk : Hook) (s : HMState) :
    ∃ (b : Bool) (hk' : Hook),
      UninstallHook env hk HookType.FunctionHook s = some (b, hk', s) := by
  by_cases h1 : hk.IsInstalled = false
  · exact ⟨true, hk, uninstallHook_not_installed env hk HookType.FunctionHook s h1⟩
  · by_cases hu : env.unpatch hk.Trampoline = true
    · refine ⟨true, { hk with Trampoline := 0 }, ?_⟩
      rw [uninstallHook_fn, if_neg h1, if_pos hu]
    · refine ⟨false, hk, ?_⟩
      rw [uninstallHook_fn, if_neg h1, if_neg hu]

theorem uninstall_fold_isSome (env : Env) :
    ∀ (l : List (Hook × HookType)) (s : HMState),
      (∀ pr ∈ l, pr.2 = HookType.VTableHook →
        (lookupMap s.sVTableAddresses pr.1.Target).isSome = true) →
      List.Pairwise (· ≠ ·)
        ((l.filter (fun pr => pr.2 == HookType.VTableHook)).map (fun pr => pr.1.Target)) →
      (l.foldlM (fun st pr => (UninstallHook env pr.1 pr.2 st).map (fun r => r.2.2)) s).isSome =
        true := by
  intro l
  induction l with
  | nil =>
    intro s h1 h2
    rfl
  | cons hd tl ih =>
    intro s h1 h2
    rw [List.foldlM_cons]
    have htlm : ∀ pr ∈ tl, pr.2 = HookType.VTableHook →
        (lookupMap s.sVTableAddresses pr.1.Target).isSome = true :=
      fun pr hpr => h1 pr (List.mem_cons_of_mem _ hpr)
    have htlp : List.Pairwise (· ≠ ·)
        ((tl.filter (fun pr => pr.2 == HookType.VTableHook)).map (fun pr => pr.1.Target)) := by
      by_cases hvt : (hd.2 == HookType.VTableHook) = true
      · rw [List.filter_cons_of_pos (by exact hvt), List.map_cons] at h2
        exact (List.pairwise_cons.mp h2).2
      · rw [List.filter_cons_of_neg (by simpa using hvt)] at h2
        exact h2
    by_cases hins : hd.1.IsInstalled = true
    · cases hmt : hd.2 with
      | Export =>
        rw [uninstallHook_export env hd.1 s]
        show (tl.foldlM
          (fun st pr => (UninstallHook env pr.1 pr.2 st).map (fun r => r.2.2)) s).isSome = true
        exact ih s htlm htlp
      | FunctionHook =>
        obtain ⟨b, hk', hstep⟩ := uninstallHook_fn_state env hd.1 s
        rw [hstep]
        show (tl.foldlM
          (fun st pr => (UninstallHook env pr.1 pr.2 st).map (fun r => r.2.2)) s).isSome = true
        exact ih s htlm htlp
      | VTableHook =>
        have hlook := h1 hd (List.mem_cons_self hd tl) hmt
        obtain ⟨slot, hslot⟩ := Option.isSome_iff_exists.mp hlook
        cases hrw : env.protOk slot PAGE_READWRITE with
        | true =>
          have hstep := uninstallHook_vt_pos env hd.1 s slot hins hslot hrw
          rw [hstep]
          show (tl.foldlM
            (fun st pr => (UninstallHook env pr.1 pr.2 st).map (fun r => r.2.2))
            { s with
              mem := memWrite s.mem slot hd.1.Target,
              sVTableAddresses := eraseMap s.sVTableAddresses hd.1.Target }).isSome = true
          apply ih
          · intro pr hpr hprvt
            show (lookupMap (eraseMap s.sVTableAddresses hd.1.Target) pr.1.Target).isSome = true
            have hne : pr.1.Target ≠ hd.1.Target := by
              have hfvt : (hd.2 == HookType.VTableHook) = true := by simp [hmt]
              rw [List.filter_cons_of_pos (by exact hfvt), List.map_cons] at h2
              have hhead := (List.pairwise_cons.mp h2).1
              have hmem : pr.1.Target ∈
                  (tl.filter (fun pr' => pr'.2 == HookType.VTableHook)).map
                    (fun pr' => pr'.1.Target) :=
                List.mem_map.mpr ⟨pr, List.mem_filter.mpr ⟨hpr, by simp [hprvt]⟩, rfl⟩
              exact fun hcon => (hhead pr.1.Target hmem) hcon.symm
            rw [lookupMap_erase_ne hne]
            exact htlm pr hpr hprvt
          · exact htlp
        | false =>
          have hstep := uninstallHook_vt_protfail env hd.1 s slot hins hslot hrw
          rw [hstep]
          show (tl.foldlM
            (fun st pr => (UninstallHook env pr.1 pr.2 st).map (fun r => r.2.2)) s).isSome = true
          exact ih s htlm htlp
    · have hni : hd.1.IsInstalled = false := by
        cases hb : hd.1.IsInstalled
        · rfl
        · exact absurd hb hins
      rw [uninstallHook_not_installed env hd.1 hd.2 s hni]
      show (tl.foldlM
        (fun st pr => (UninstallHook env pr.1 pr.2 st).map (fun r => r.2.2)) s).isSome = true
      exact ih s htlm htlp

theorem uninstallAll_eq (env : Env) (s : HMState) {s₁ : HMState}
    (hfold : s.sHooks.foldlM
      (fun st p => (UninstallHook env p.1 p.2 st).map (fun r => r.2.2)) s = some s₁) :
    UninstallAll env s = some (match s₁.sExportHookModule with
      | some m => { s₁ with
          sHooks := ([] : List (Hook × HookType)),
          freed := s₁.freed ++ [m.imageBase] }
      | none => { s₁ with sHooks := ([] : List (Hook × HookType)) }) := by
  unfold UninstallAll
  rw [hfold, bind_some_eq]
  cases hmod : s₁.sExportHookModule with
  | some m =>
    simp only [hmod]
    rfl
  | none =>
    simp only [hmod]
    rfl

theorem uninstallAll_isSome (env : Env) (s : HMState) (hinv : VTableInv s) :
    (UninstallAll env s).isSome = true := by
  have hfold := uninstall_fold_isSome env s.sHooks s hinv.1 hinv.2
  obtain ⟨s₁, hs₁⟩ := Option.isSome_iff_exists.mp hfold
  rw [uninstallAll_eq env s hs₁]
  rfl

theorem uninstallAll_hooks_nil (env : Env) (s : HMState) {s' : HMState}
    (h : UninstallAll env s = some s') : s'.sHooks = [] := by
  unfold UninstallAll at h
  obtain ⟨s₁, hs₁, h⟩ := bind_eq_some_destruct h
  have h' : (match s₁.sExportHookModule with
    | some m => (pure { s₁ with
        sHooks := ([] : List (Hook × HookType)),
        freed := s₁.freed ++ [m.imageBase] } : Option HMState)
    | none => pure { s₁ with sHooks := ([] : List (Hook × HookType)) }) = some s' := h
  cases hmod : s₁.sExportHookModule with
  | some m =>
    rw [hmod] at h'
    have hs : ({ s₁ with
        sHooks := ([] : List (Hook × HookType)),
        sExportHookModule := some m,
        freed := s₁.freed ++ [m.imageBase] } : HMState) = s' := Option.some.inj h'
    rw [← hs]
  | none =>
    rw [hmod] at h'
    have hs : ({ s₁ with
        sHooks := ([] : List (Hook × HookType)),
        sExportHookModule := (none : Option ModuleImage) } : HMState) = s' :=
      Option.some.inj h'
    rw [← hs]

theorem inv_empty_hooks (s : HMState) (h : s.sHooks = []) : VTableInv s := by
  constructor
  · intro pr hpr _
    rw [h] at hpr
    exact absurd hpr (List.not_mem_nil pr)
  · rw [h]
    simp

theorem reach_inv {s : HMState} (h : Reach s) : VTableInv s := by
  induction h with
  | init mem₀ => exact inv_empty_hooks _ rfl
  | installFn hr heq ih => exact inv_of_nonVT ih (installFn_nonVT _ _ _ _ heq)
  | installVT hr heq ih => exact installVT_inv _ _ _ _ _ ih heq
  | register hr heq ih => exact inv_of_nonVT ih (register_nonVT _ _ _ heq)
  | uninstallAll hr heq ih => exact inv_empty_hooks _ (uninstallAll_hooks_nil _ _ heq)
  | call hr heq ih => exact inv_of_nonVT ih (call_nonVT _ _ _ heq)
  | loadA hr heq ih => exact inv_of_nonVT ih (loadA_nonVT _ _ _ heq)
  | loadW hr heq ih => exact inv_of_nonVT ih (loadW_nonVT _ _ _ heq)

theorem installVT_isSome (env : Env) (vt : Addr) (off : Nat) (q : Addr) (s : HMState) :
    (InstallVTable env vt off q s).isSome = true := by
  cases hro : env.protOk (vt + off) PAGE_READONLY with
  | false =>
    rw [installVT_protro_fail env vt off q s hro]
    rfl
  | true =>
    cases hfind : s.sVTableAddresses.find? (fun e' => e'.1 = s.mem (vt + off)) with
    | some e =>
      rw [installVT_dup env vt off q s e hfind hro]
      rfl
    | none =>
      have hfr : lookupMap s.sVTableAddresses (s.mem (vt + off)) = none := by
        unfold lookupMap
        rw [hfind]
        rfl
      by_cases heq : s.mem (vt + off) = q
      · rw [installVT_self env vt off q s hro hfr heq]
        rfl
      · rw [installVT_fresh env vt off q s hro hfr heq]
        cases hrw : env.protOk (vt + off) PAGE_READWRITE with
        | true =>
          rw [installByType_vt_pos env (s.mem (vt + off)) q _ (vt + off)
            (lookupMap_cons_self (s.mem (vt + off)) (vt + off) s.sVTableAddresses) hrw]
          rfl
        | false =>
          rw [installByType_vt_protfail env (s.mem (vt + off)) q _ (vt + off)
            (lookupMap_cons_self (s.mem (vt + off)) (vt + off) s.sVTableAddresses) hrw]
          rfl

/-- C10: in every state reachable through the public entry points, each
tracked VTableHook entry has its target registered in the vtable slot table,
so the slot-table lookups of the VTableHook paths always find an entry: the
global Uninstall never hits the lookup-failure branch (it always returns a
state rather than propagating the out_of_range exception), and neither does
the public vtable Install, whose internal lookup follows its own fresh
insert. -/
theorem spec_C10_invariant (s : HMState) (h : Reach s) :
    (∀ pr ∈ s.sHooks, pr.2 = HookType.VTableHook →
      (lookupMap s.sVTableAddresses pr.1.Target).isSome = true) ∧
    (∀ env : Env, (UninstallAll env s).isSome = true) ∧
    (∀ (env : Env) (vt : Addr) (off : Nat) (q : Addr),
      (InstallVTable env vt off q s).isSome = true) :=
  ⟨(reach_inv h).1, fun env => uninstallAll_isSome env s (reach_inv h),
    fun env vt off q => installVT_isSome env vt off q s⟩

/-- C10 witness: the invariant instantiated at the reachable initial state. -/
theorem spec_C10_witness :
    Reach (initState memZero) ∧
    ((∀ pr ∈ (initState memZero).sHooks, pr.2 = HookType.VTableHook →
      (lookupMap (initState memZero).sVTableAddresses pr.1.Target).isSome = true) ∧
    (∀ env : Env, (UninstallAll env (initState memZero)).isSome = true) ∧
    (∀ (env : Env) (vt : Addr) (off : Nat) (q : Addr),
      (InstallVTable env vt off q (initState memZero)).isSome = true)) :=
  ⟨Reach.init memZero, spec_C10_invariant (initState memZero) (Reach.init memZero)⟩

end ReShade.Hooks
